import Mathlib

/-!
Verification development for the HTTP-backed SQLite VFS worker
(`src/js/vfs-http-worker-bundle.js`).

The file shallowly embeds, from the source:
* the size-bounded LRU page cache (`LRUCache` with `maxSize`/`sizeCalculation`),
  modelled as a recency-ordered association list (`SCache`);
* the count-bounded file registry cache (`LRUCache` with `max: 32`, `FCache`);
* the sequential semantics of the backend methods `xOpen`, `xAccess`, `xRead`
  (including page-size discovery and super-page coalescing) and `xFilesize`,
  with network fetches resolved by an oracle (`xReadSeq`, `xOpenSeq`, ...);
* the dispatcher boundary `workMessage` (status write + notify);
* a small-step interleaving machine for concurrent `xRead` requests
  (`MState` / `execA`), in which each step runs the code between two `await`
  suspension points atomically, as the single-threaded worker does.
-/

namespace VfsWorker

/-- A value stored in the page cache.  From the comment block above
`backendAsyncMethods`: an entry is either the page bytes (`Uint8Array`),
the number of the page holding the parent super-page, or a promise.
A promise in the cache is either the in-flight fetch itself (resolving to the
chunk bytes) or `resp.then(() => Number(page))` (resolving to the root page
number); we tag the latter as `promRef`. -/
inductive CVal where
  | data (b : List Nat)
  | num (r : Nat)
  | prom (pid : Nat)
  | promRef (pid : Nat) (root : Nat)
deriving DecidableEq, Repr

/-- `sizeCalculation: (value) => value.byteLength ?? 4` from the `init`
handler: page bytes weigh their length, numbers and promises weigh 4. -/
def sizeCalculation : CVal → Nat
  | .data b => b.length
  | _ => 4

/-- The size-bounded LRU cache (`LRUCache` constructed with `maxSize` and
`sizeCalculation`).  `entries` is in recency order: the head is the
least-recently-used entry (`this.head`), the last element the most recently
used (`this.tail`).  Each entry carries its computed size. -/
structure SCache where
  maxSize : Nat
  entries : List (String × CVal × Nat)
deriving DecidableEq, Repr

/-- Total tracked size (`this.calculatedSize`): sum of the stored sizes. -/
def cacheTotal (es : List (String × CVal × Nat)) : Nat :=
  (es.map fun e => e.2.2).sum

/-- Remove every entry with key `k` (`this.delete(k)` body). -/
def removeKey (k : String) (es : List (String × CVal × Nat)) :
    List (String × CVal × Nat) :=
  es.filter fun e => e.1 ≠ k

/-- The `while (this.calculatedSize > maxSize) this.evict(true)` loop of
`addItemSize`: evict from the least-recently-used end until the total fits.
The loop condition `calculatedSize > this.maxSize - size` (with
`calculatedSize` not yet including the entry being added) is equivalent to
comparing the total including the new tail entry against `maxSize`, because
the guard in `set` ensures `size ≤ maxEntrySize = maxSize`. -/
def evictToFit (maxSize : Nat) : List (String × CVal × Nat) →
    List (String × CVal × Nat)
  | [] => []
  | e :: rest =>
    if cacheTotal (e :: rest) > maxSize then evictToFit maxSize rest
    else e :: rest

/-- Value at `k` without touching recency (used to state properties). -/
def SCache.peek (c : SCache) (k : String) : Option CVal :=
  (c.entries.find? fun e => e.1 == k).map fun e => e.2.1

/-- `LRUCache.get`: on a hit the entry is moved to the most-recently-used
end (`moveToTail`) and its value returned.  The cache is used without TTLs
and its values are plain (never `isBackgroundFetch`), so the stale and
background-fetch branches of the source are dead. -/
def SCache.get (c : SCache) (k : String) : Option CVal × SCache :=
  match c.entries.find? fun e => e.1 == k with
  | none => (none, c)
  | some e => (some e.2.1, { c with entries := removeKey k c.entries ++ [e] })

/-- `LRUCache.set`:
* `requireSize` demands a positive integer size, else it throws before any
  mutation (`size = 0` leaves the cache unchanged);
* if `maxEntrySize` (defaulted to `maxSize`) is exceeded, the key is deleted
  and nothing is inserted;
* otherwise the entry is (re)inserted at the most-recently-used end and
  `addItemSize` evicts least-recently-used entries while the total exceeds
  `maxSize`.  When `maxSize = 0` both the entry-size guard and the eviction
  loop are disabled, as in the source (`if (this.maxSize)`). -/
def SCache.set (c : SCache) (k : String) (v : CVal) : SCache :=
  if sizeCalculation v = 0 then c
  else if c.maxSize ≠ 0 ∧ sizeCalculation v > c.maxSize then
    { c with entries := removeKey k c.entries }
  else if c.maxSize = 0 then
    { c with entries := removeKey k c.entries ++ [(k, v, sizeCalculation v)] }
  else
    { c with entries :=
        evictToFit c.maxSize (removeKey k c.entries ++ [(k, v, sizeCalculation v)]) }

/-- `LRUCache.delete` (page-cache side: values are plain, no abort). -/
def SCache.delete (c : SCache) (k : String) : SCache :=
  { c with entries := removeKey k c.entries }

/-- One cache operation, for stating properties over arbitrary call
sequences. -/
inductive CacheOp where
  | cset (k : String) (v : CVal)
  | cget (k : String)
  | cdel (k : String)
deriving DecidableEq, Repr

def applyCacheOp (c : SCache) : CacheOp → SCache
  | .cset k v => c.set k v
  | .cget k => (c.get k).2
  | .cdel k => c.delete k

def applyCacheOps (c : SCache) (ops : List CacheOp) : SCache :=
  ops.foldl applyCacheOp c

/-- The page cache as created by the `init` control message:
`new LRUCache({ maxSize: (options?.cacheSize ?? 1024) * 1024, sizeCalculation })`. -/
def initCache (cacheSize : Nat) : SCache :=
  { maxSize := cacheSize * 1024, entries := [] }

/-- The per-file metadata record built by `xOpen`'s HEAD callback:
`{ url, id: nextId++, size: BigInt(Content-Length ?? 0), pageSize: null }`.
`pageSize` is `none` while still `null`; the source tests it with the
falsy check `!entry.pageSize`, so a stored `0` also counts as unknown. -/
structure FileEntry where
  url : String
  id : Nat
  size : Nat
  pageSize : Option Nat
deriving DecidableEq, Repr

/-- Resolution state of the `xOpen` HEAD promise. -/
inductive FPromSt where
  | fulfilled (fe : FileEntry)
  | frejected
deriving DecidableEq, Repr

/-- A value in the `files` registry: the in-flight (or settled) open
promise, or the resolved entry written by the second `files.set`. -/
inductive FileVal where
  | fprom (pid : Nat)
  | fentry (fe : FileEntry)
deriving DecidableEq, Repr

/-- The file registry `files = new LRUCache({ max: 32 })`: count-bounded,
recency-ordered (head least recently used). -/
structure FCache where
  maxF : Nat
  fentries : List (String × FileVal)
deriving DecidableEq, Repr

/-- Registry lookup without recency change (for stating properties). -/
def lookupF (c : FCache) (url : String) : Option FileVal :=
  (c.fentries.find? fun e => e.1 == url).map fun e => e.2

/-- `files.get`: moves a hit to the most-recently-used end. -/
def FCache.fget (c : FCache) (url : String) : Option FileVal × FCache :=
  match c.fentries.find? fun e => e.1 == url with
  | none => (none, c)
  | some e =>
    (some e.2, { c with fentries := (c.fentries.filter fun x => x.1 ≠ url) ++ [e] })

/-- `files.set` on the `max`-bounded cache: update moves to the tail;
an addition at capacity (`this.size === this.max && this.max !== 0`)
first evicts the least-recently-used entry (`newIndex` → `evict`). -/
def FCache.fset (c : FCache) (url : String) (v : FileVal) : FCache :=
  if (c.fentries.find? fun e => e.1 == url).isSome then
    { c with fentries := (c.fentries.filter fun x => x.1 ≠ url) ++ [(url, v)] }
  else if c.fentries.length = c.maxF ∧ c.maxF ≠ 0 then
    { c with fentries := c.fentries.tail ++ [(url, v)] }
  else
    { c with fentries := c.fentries ++ [(url, v)] }

/-- In-place mutation of the entry object referenced from the registry
(`entry.pageSize = ...` mutates the object stored in `files`); the
recency order is untouched. -/
def FCache.updEntry (c : FCache) (url : String) (fe : FileEntry) : FCache :=
  { c with fentries := c.fentries.map fun e =>
      if e.1 == url then (url, FileVal.fentry fe) else e }

/-- Resolution state of a page-fetch promise (`resp`). -/
inductive PromSt where
  | pending
  | fulfilled (b : List Nat)
  | rejectedP
deriving DecidableEq, Repr

/-- Outcome of one `fetch().then(arrayBuffer).then(Uint8Array)` chain for a
byte-range GET.  `fetch` rejects only on network error; a non-2xx response
still fulfils with the (error) body bytes, so the oracle is free to return
any byte list. -/
inductive FetchOutcome where
  | ok (b : List Nat)
  | err
deriving DecidableEq, Repr

/-- Outcome of the `xOpen` HEAD probe.  The response carries its HTTP
status, the `Accept-Ranges: bytes` flag and `Content-Length`; the source
callback reads only the headers and never inspects the status. -/
inductive ProbeOutcome where
  | netError
  | response (status : Nat) (acceptRanges : Bool) (contentLength : Option Nat)
deriving DecidableEq, Repr

/-- The recognized backend options (`options` set by `init`). -/
structure BOptions where
  maxPageSize : Option Nat
  cacheSize : Option Nat
deriving DecidableEq, Repr

/-- `options?.maxPageSize ?? defaultOptions.maxPageSize` with
`defaultOptions.maxPageSize = 4096`. -/
def maxPSof (o : BOptions) : Nat := o.maxPageSize.getD 4096

/-- Dispatcher-owned state: file registry with its promise table, the page
cache with its promise table, plus observation logs of issued network
requests (each `fetchLog` entry is the cache key, the `Range` start and the
requested byte count; each `probeLog` entry a HEAD probe URL). -/
structure SeqState where
  options : BOptions
  files : FCache
  fproms : List FPromSt
  nextId : Nat
  cache : SCache
  proms : List PromSt
  fetchLog : List (String × Nat × Nat)
  probeLog : List String
deriving DecidableEq, Repr

/-- The cache key `entry.id + '|' + page`. -/
def ckey (fid page : Nat) : String := toString fid ++ "|" ++ toString page

/-- What a cache lookup yields after the `if (data instanceof Promise)
data = yield data` await: page bytes, a root page number, nothing, or a
thrown rejection.  Awaiting a promise that is still pending cannot happen
in a sequential run (the oracle settles each fetch as it is issued); it is
mapped to a throw. -/
inductive RVal where
  | vData (b : List Nat)
  | vNum (r : Nat)
  | vNone
  | vThrow
deriving DecidableEq, Repr

def resolveCVal (proms : List PromSt) : Option CVal → RVal
  | none => .vNone
  | some (.data b) => .vData b
  | some (.num r) => .vNum r
  | some (.prom pid) =>
    match proms.get? pid with
    | some (.fulfilled b) => .vData b
    | _ => .vThrow
  | some (.promRef pid r) =>
    match proms.get? pid with
    | some (.fulfilled _) => .vNum r
    | _ => .vThrow

/-- `consumer.buffer.set(data.subarray(pageOffset, pageOffset + msg.n))`:
the requested slice of the chunk. -/
def readSlice (b : List Nat) (pageStart offset n : Nat) : List Nat :=
  ((b.drop (offset - pageStart)).take n)

/-- Install `Promise<root>` references for the non-root pages of an
in-flight chunk: `for (i = page+1; i < page+pages; i++)
cache.set(id + '|' + i, resp.then(() => Number(page)))`. -/
def setRefsProm (c : SCache) (fid page pages pid : Nat) : SCache :=
  (List.range (pages - 1)).foldl
    (fun c i => c.set (ckey fid (page + 1 + i)) (.promRef pid page)) c

/-- Install plain number references after the chunk arrived:
`for (...) cache.set(id + '|' + i, Number(page))`. -/
def setRefsNum (c : SCache) (fid page pages : Nat) : SCache :=
  (List.range (pages - 1)).foldl
    (fun c i => c.set (ckey fid (page + 1 + i)) (.num page)) c

/-- The coalescing inspection
`let prev = page > 0 && cache.get(id + '|' + (page - 1))` with its awaits
and root dereference: returns the chunk byte count to fetch (`p`, or twice
the resident predecessor chunk), or `none` when an awaited promise was
rejected (the `yield` throws). -/
def resolvePrev (s : SeqState) (fid p page : Nat) : Option Nat × SeqState :=
  if page = 0 then (some p, s)
  else
    let g := s.cache.get (ckey fid (page - 1))
    let s1 := { s with cache := g.2 }
    match resolveCVal s1.proms g.1 with
    | .vNone => (some p, s1)
    | .vThrow => (none, s1)
    | .vData b => (some (2 * b.length), s1)
    | .vNum r =>
      let g2 := s1.cache.get (ckey fid r)
      let s2 := { s1 with cache := g2.2 }
      match resolveCVal s2.proms g2.1 with
      | .vData b => (some (2 * b.length), s2)
      | .vThrow => (none, s2)
      | _ => (some p, s2)

/-- The cache-miss tail of `xRead`: coalescing chunk-size computation,
fetch issue with the `Pending` promise installed synchronously after it,
then the await on the fetch and, on success, installation of the chunk
and its references. -/
def xReadMiss (net : String → Nat → Nat → FetchOutcome) (s : SeqState)
    (url : String) (fid p page pageStart offset n : Nat) :
    SeqState × Except Unit (List Nat) :=
  match resolvePrev s fid p page with
  | (none, s1) => (s1, .error ())
  | (some chunkSize, s1) =>
    let pages := chunkSize / p
    let pid := s1.proms.length
    let outcome := net url pageStart chunkSize
    let s2 : SeqState :=
      { s1 with
        fetchLog := s1.fetchLog ++ [(ckey fid page, pageStart, chunkSize)],
        proms := s1.proms ++
          [match outcome with
           | .ok b => PromSt.fulfilled b
           | .err => PromSt.rejectedP],
        cache := setRefsProm (s1.cache.set (ckey fid page) (.prom pid))
          fid page pages pid }
    match outcome with
    | .err => (s2, .error ())
    | .ok b =>
      if b.length = 0 then (s2, .error ())
      else
        let s3 := { s2 with
          cache := setRefsNum (s2.cache.set (ckey fid page) (.data b))
            fid page pages }
        (s3, .ok (readSlice b pageStart offset n))

/-- `xRead` once the page size is known: boundary check, cache lookup with
promise await, super-page reference dereference, then hit or miss path.
`p = 0` throws at `msg.offset / pageSize` (BigInt division by zero). -/
def xReadKnown (net : String → Nat → Nat → FetchOutcome) (s : SeqState)
    (url : String) (fid p offset n : Nat) :
    SeqState × Except Unit (List Nat) :=
  if p = 0 then (s, .error ())
  else
    let page := offset / p
    let pageStart := page * p
    if pageStart + p < offset + n then (s, .error ())
    else
      let g0 := s.cache.get (ckey fid page)
      let s0 := { s with cache := g0.2 }
      match resolveCVal s0.proms g0.1 with
      | .vThrow => (s0, .error ())
      | .vData b => (s0, .ok (readSlice b pageStart offset n))
      | .vNum r =>
        let g1 := s0.cache.get (ckey fid r)
        let s1 := { s0 with cache := g1.2 }
        match resolveCVal s1.proms g1.1 with
        | .vData b => (s1, .ok (readSlice b (r * p) offset n))
        | .vThrow => (s1, .error ())
        | _ => xReadMiss net s1 url fid p page pageStart offset n
      | .vNone => xReadMiss net s0 url fid p page pageStart offset n

/-- `!entry.pageSize`: page size still unknown (never set, or set to the
falsy `0`). -/
def psUnknown (fe : FileEntry) : Bool :=
  match fe.pageSize with
  | none => true
  | some q => q == 0

/-- `backendAsyncMethods.xRead`: file lookup (awaiting an in-flight open),
page-size discovery on first use (provisional size 1024, big-endian bytes
16–17 of page 0, `maxPageSize` check), then the known-page-size path.
The recursive discovery read is inlined as `xReadKnown` since the
provisional page size has just been set, and the registry recency bump of
its `files.get` is replayed. -/
def xReadSeq (net : String → Nat → Nat → FetchOutcome) (s : SeqState)
    (url : String) (offset n : Nat) : SeqState × Except Unit (List Nat) :=
  let g := s.files.fget url
  let s0 := { s with files := g.2 }
  match g.1 with
  | none => (s0, .error ())
  | some fv =>
    let feOpt : Option FileEntry :=
      match fv with
      | .fentry fe => some fe
      | .fprom pid =>
        match s0.fproms.get? pid with
        | some (.fulfilled fe) => some fe
        | _ => none
    match feOpt with
    | none => (s0, .error ())
    | some fe =>
      if psUnknown fe then
        let fe1 := { fe with pageSize := some 1024 }
        let s1 := { s0 with files := ((s0.files.updEntry url fe1).fget url).2 }
        match xReadKnown net s1 url fe1.id 1024 16 2 with
        | (s2, .error _) => (s2, .error ())
        | (s2, .ok twoBytes) =>
          let newPS := (twoBytes.getD 0 0) * 256 + twoBytes.getD 1 0
          let fe2 := { fe1 with pageSize := some newPS }
          let s3 := { s2 with files := s2.files.updEntry url fe2 }
          let s4 :=
            if newPS ≠ 1024 then { s3 with cache := s3.cache.delete (ckey fe2.id 0) }
            else s3
          if newPS > maxPSof s4.options then (s4, .error ())
          else xReadKnown net s4 url fe2.id newPS offset n
      else xReadKnown net s0 url fe.id (fe.pageSize.getD 0) offset n

/-- `backendAsyncMethods.xOpen`: reuse an existing (possibly in-flight)
entry; otherwise issue the HEAD probe, install its promise in the registry
synchronously, and replace it with the resolved entry.  On rejection the
`yield entry` throws after the first `files.set`, so the rejected promise
stays registered.  The resolved entry ignores the response status. -/
def xOpenSeq (probe : String → ProbeOutcome) (s : SeqState) (url : String) :
    SeqState × Except Unit Nat :=
  let g := s.files.fget url
  let s0 := { s with files := g.2 }
  match g.1 with
  | some (.fprom pid) =>
    match s0.fproms.get? pid with
    | some (.fulfilled _) => (s0, .ok 0)
    | _ => (s0, .error ())
  | some (.fentry _) => (s0, .ok 0)
  | none =>
    let pid := s0.fproms.length
    match probe url with
    | .netError =>
      ({ s0 with
          fproms := s0.fproms ++ [.frejected],
          files := s0.files.fset url (.fprom pid),
          probeLog := s0.probeLog ++ [url] }, .error ())
    | .response _ _ contentLength =>
      let fe : FileEntry :=
        { url := url, id := s0.nextId, size := contentLength.getD 0,
          pageSize := none }
      ({ s0 with
          fproms := s0.fproms ++ [.fulfilled fe],
          nextId := s0.nextId + 1,
          files := (s0.files.fset url (.fprom pid)).fset url (.fentry fe),
          probeLog := s0.probeLog ++ [url] }, .ok 0)

/-- `backendAsyncMethods.xAccess`: delegate to `xOpen`, write `1`/`0` into
the consumer's result cell, swallow any error, and return status 0. -/
def xAccessSeq (probe : String → ProbeOutcome) (s : SeqState) (url : String) :
    SeqState × Nat × Except Unit Nat :=
  match xOpenSeq probe s url with
  | (s1, .ok r) => (s1, if r = 0 then 1 else 0, .ok 0)
  | (s1, .error _) => (s1, 0, .ok 0)

/-- `backendAsyncMethods.xFilesize`: cached size from the registry; throws
for a file that was never opened or whose open promise rejected. -/
def xFilesizeSeq (s : SeqState) (url : String) :
    SeqState × Option Nat × Except Unit Nat :=
  let g := s.files.fget url
  let s0 := { s with files := g.2 }
  match g.1 with
  | none => (s0, none, .error ())
  | some (.fprom pid) =>
    match s0.fproms.get? pid with
    | some (.fulfilled fe) => (s0, some fe.size, .ok 0)
    | _ => (s0, none, .error ())
  | some (.fentry fe) => (s0, some fe.size, .ok 0)

/-- Shared-memory actions visible to the blocked consumer. -/
inductive SyncAction where
  | store (v : Nat)
  | notify
deriving DecidableEq, Repr

/-- The status written by `workMessage`: the handler's return value, or the
single generic failure code 1 for any thrown error. -/
def statusOf {ε : Type} : Except ε Nat → Nat
  | .ok r => r
  | .error _ => 1

/-- `workMessage`: `try { r = await handler; Atomics.store(lock, 0, r) }
catch (e) { console.error(e); Atomics.store(lock, 0, 1) }
Atomics.notify(lock, 0)`.  The error value itself is only logged, never
transmitted. -/
def workMessage {ε : Type} (res : Except ε Nat) : List SyncAction :=
  match res with
  | .ok r => [.store r, .notify]
  | .error _ => [.store 1, .notify]

/-- One data message routed through a consumer's shared region. -/
inductive Msg where
  | mOpen (url : String)
  | mAccess (url : String)
  | mRead (url : String) (offset n : Nat)
  | mFilesize (url : String)
deriving DecidableEq, Repr

/-- Run a data-message handler; `xRead` writes its bytes into the consumer
buffer and returns 0. -/
def runMsg (probe : String → ProbeOutcome)
    (net : String → Nat → Nat → FetchOutcome) (s : SeqState) :
    Msg → SeqState × Except Unit Nat
  | .mOpen url => xOpenSeq probe s url
  | .mAccess url =>
    let r := xAccessSeq probe s url
    (r.1, r.2.2)
  | .mRead url offset n =>
    let r := xReadSeq net s url offset n
    (r.1, r.2.map fun _ => 0)
  | .mFilesize url =>
    let r := xFilesizeSeq s url
    (r.1, r.2.2)

def isStore : SyncAction → Bool
  | .store _ => true
  | .notify => false

def isNotify : SyncAction → Bool
  | .store _ => false
  | .notify => true

/-- A file registry in which `url`'s open probe rejected and the rejected
promise is still the registered value. -/
def poisoned (s : SeqState) (url : String) : Prop :=
  ∃ pid, lookupF s.files url = some (.fprom pid) ∧
    s.fproms.get? pid = some .frejected

/-!
Small-step interleaving machine for concurrent `xRead` requests on a file
whose page size is already known.  Each scheduled step runs the `xRead`
code between two `await` suspension points atomically, exactly as the
single-threaded worker interleaves async handlers at `yield` points.
The cache is the association map of keys to values; LRU eviction is an
explicit environment action (`evictK`), since the claims under study
condition on whether eviction happens.
-/

/-- Awaiting a cache promise: the in-flight fetch itself (`direct`,
resolving to the chunk bytes) or a derived `resp.then(() => Number(page))`
reference promise (`asNum`, resolving to the root page number). -/
inductive Await where
  | direct (pid : Nat)
  | asNum (pid : Nat) (r : Nat)
deriving DecidableEq, Repr

/-- Program counter of one in-flight `xRead` task, at its `await`
suspension points:
* `start` — not yet run;
* `s1` — `data = yield data` on the promise found at the request's own key;
* `s2` — `data = yield data` on the promise found at the dereferenced root;
* `s3` — `prev = yield prev` on the promise found at page - 1;
* `s4` — `prev = yield prev` on the promise found at page - 1's root;
* `s5` — `data = yield resp` on the task's own fetch (remembering the
  requested chunk size for the reference loop);
* `doneT` — handler returned (status stored by `workMessage`). -/
inductive TPC where
  | start
  | s1 (aw : Await)
  | s2 (aw : Await)
  | s3 (aw : Await)
  | s4 (aw : Await)
  | s5 (pid : Nat) (chunkSize : Nat)
  | doneT (status : Nat)
deriving DecidableEq, Repr

/-- One `xRead` request in flight: file id, known page size, target page
(the request passed the page-boundary check), and its continuation. -/
structure MTask where
  fid : Nat
  p : Nat
  page : Nat
  pc : TPC
deriving DecidableEq, Repr

/-- Machine state: association-map cache, promise table, tasks and the log
of issued byte-range fetches (cache key, range start, byte count). -/
structure MState where
  cache : List (String × CVal)
  proms : List PromSt
  tasks : List MTask
  fetchLog : List (String × Nat × Nat)
deriving DecidableEq, Repr

def lookupA (cache : List (String × CVal)) (k : String) : Option CVal :=
  (cache.find? fun e => e.1 == k).map fun e => e.2

def setA (cache : List (String × CVal)) (k : String) (v : CVal) :
    List (String × CVal) :=
  if (cache.find? fun e => e.1 == k).isSome then
    cache.map fun e => if e.1 == k then (k, v) else e
  else cache ++ [(k, v)]

def removeA (cache : List (String × CVal)) (k : String) :
    List (String × CVal) :=
  cache.filter fun e => e.1 ≠ k

/-- Replace task `tid`'s continuation. -/
def updPC (ts : List MTask) (tid : Nat) (pc : TPC) : List MTask :=
  match ts.get? tid with
  | none => ts
  | some t => ts.set tid { t with pc := pc }

/-- Install the reference promises for the covered pages. -/
def setRefsPromA (cache : List (String × CVal)) (fid page pages pid : Nat) :
    List (String × CVal) :=
  (List.range (pages - 1)).foldl
    (fun c i => setA c (ckey fid (page + 1 + i)) (.promRef pid page)) cache

/-- Install the plain references after the chunk arrived. -/
def setRefsNumA (cache : List (String × CVal)) (fid page pages : Nat) :
    List (String × CVal) :=
  (List.range (pages - 1)).foldl
    (fun c i => setA c (ckey fid (page + 1 + i)) (.num page)) cache

/-- Issue the fetch: create the promise, log the request, synchronously
install the `Pending` entry and the covered references (all in the same
atomic segment as the `fetch()` call), and suspend at `yield resp`. -/
def fetchNow (s : MState) (tid : Nat) (t : MTask) (chunkSize : Nat) : MState :=
  let pid := s.proms.length
  let pages := chunkSize / t.p
  { s with
    proms := s.proms ++ [.pending],
    fetchLog := s.fetchLog ++ [(ckey t.fid t.page, t.page * t.p, chunkSize)],
    cache := setRefsPromA (setA s.cache (ckey t.fid t.page) (.prom pid))
      t.fid t.page pages pid,
    tasks := updPC s.tasks tid (.s5 pid chunkSize) }

/-- The miss tail from `let prev = page > 0 && cache.get(...)` up to the
fetch or the next suspension. -/
def missPath (s : MState) (tid : Nat) (t : MTask) : MState :=
  if t.page = 0 then fetchNow s tid t t.p
  else
    match lookupA s.cache (ckey t.fid (t.page - 1)) with
    | none => fetchNow s tid t t.p
    | some (.data b) => fetchNow s tid t (2 * b.length)
    | some (.prom pid) => { s with tasks := updPC s.tasks tid (.s3 (.direct pid)) }
    | some (.promRef pid r) => { s with tasks := updPC s.tasks tid (.s3 (.asNum pid r)) }
    | some (.num r) =>
      match lookupA s.cache (ckey t.fid r) with
      | some (.data b) => fetchNow s tid t (2 * b.length)
      | some (.prom pid) => { s with tasks := updPC s.tasks tid (.s4 (.direct pid)) }
      | some (.promRef pid r2) => { s with tasks := updPC s.tasks tid (.s4 (.asNum pid r2)) }
      | _ => fetchNow s tid t t.p

/-- Dereference a root page number found at the request's key:
hit if the root holds bytes, suspend if it holds a promise, fall through
to the miss path otherwise. -/
def derefRoot (s : MState) (tid : Nat) (t : MTask) (r : Nat) : MState :=
  match lookupA s.cache (ckey t.fid r) with
  | some (.data _) => { s with tasks := updPC s.tasks tid (.doneT 0) }
  | some (.prom pid) => { s with tasks := updPC s.tasks tid (.s2 (.direct pid)) }
  | some (.promRef pid r2) => { s with tasks := updPC s.tasks tid (.s2 (.asNum pid r2)) }
  | _ => missPath s tid t

/-- First atomic segment of `xRead` (from the `cache.get(cacheId)` lookup
to the first suspension, hit return or fetch issue). -/
def stepStart (s : MState) (tid : Nat) (t : MTask) : MState :=
  match lookupA s.cache (ckey t.fid t.page) with
  | some (.prom pid) => { s with tasks := updPC s.tasks tid (.s1 (.direct pid)) }
  | some (.promRef pid r) => { s with tasks := updPC s.tasks tid (.s1 (.asNum pid r)) }
  | some (.data _) => { s with tasks := updPC s.tasks tid (.doneT 0) }
  | some (.num r) => derefRoot s tid t r
  | none => missPath s tid t

/-- What an awaited promise delivers once settled. -/
inductive AwaitRes where
  | rbytes (b : List Nat)
  | rnum (r : Nat)
  | rrej
deriving DecidableEq, Repr

/-- `none` while the underlying promise is still pending (the awaiting
task is not schedulable). -/
def awaitVal (proms : List PromSt) : Await → Option AwaitRes
  | .direct pid =>
    match proms.get? pid with
    | some (.fulfilled b) => some (.rbytes b)
    | some .rejectedP => some .rrej
    | _ => none
  | .asNum pid r =>
    match proms.get? pid with
    | some (.fulfilled _) => some (.rnum r)
    | some .rejectedP => some .rrej
    | _ => none

/-- Resume a task: one atomic segment from its suspension point to the
next one (or completion).  An unschedulable or finished task is left
unchanged. -/
def runTask (s : MState) (tid : Nat) (t : MTask) : MState :=
  match t.pc with
  | .start => stepStart s tid t
  | .s1 aw =>
    match awaitVal s.proms aw with
    | none => s
    | some .rrej => { s with tasks := updPC s.tasks tid (.doneT 1) }
    | some (.rbytes _) => { s with tasks := updPC s.tasks tid (.doneT 0) }
    | some (.rnum r) => derefRoot s tid t r
  | .s2 aw =>
    match awaitVal s.proms aw with
    | none => s
    | some .rrej => { s with tasks := updPC s.tasks tid (.doneT 1) }
    | some (.rbytes _) => { s with tasks := updPC s.tasks tid (.doneT 0) }
    | some (.rnum _) => missPath s tid t
  | .s3 aw =>
    match awaitVal s.proms aw with
    | none => s
    | some .rrej => { s with tasks := updPC s.tasks tid (.doneT 1) }
    | some (.rbytes b) => fetchNow s tid t (2 * b.length)
    | some (.rnum r) =>
      match lookupA s.cache (ckey t.fid r) with
      | some (.data b) => fetchNow s tid t (2 * b.length)
      | some (.prom pid) => { s with tasks := updPC s.tasks tid (.s4 (.direct pid)) }
      | some (.promRef pid r2) => { s with tasks := updPC s.tasks tid (.s4 (.asNum pid r2)) }
      | _ => fetchNow s tid t t.p
  | .s4 aw =>
    match awaitVal s.proms aw with
    | none => s
    | some .rrej => { s with tasks := updPC s.tasks tid (.doneT 1) }
    | some (.rbytes b) => fetchNow s tid t (2 * b.length)
    | some (.rnum _) => fetchNow s tid t t.p
  | .s5 pid chunkSize =>
    match s.proms.get? pid with
    | some (.fulfilled b) =>
      if b.length = 0 then { s with tasks := updPC s.tasks tid (.doneT 1) }
      else
        { s with
          cache := setRefsNumA (setA s.cache (ckey t.fid t.page) (.data b))
            t.fid t.page (chunkSize / t.p),
          tasks := updPC s.tasks tid (.doneT 0) }
    | some .rejectedP => { s with tasks := updPC s.tasks tid (.doneT 1) }
    | _ => s
  | .doneT _ => s

/-- Scheduler/environment actions: run one task segment, settle a fetch
promise (fulfil with bytes or reject), or evict a cache key. -/
inductive MAction where
  | runT (tid : Nat)
  | netOk (pid : Nat) (b : List Nat)
  | netErr (pid : Nat)
  | evictK (k : String)
deriving DecidableEq, Repr

def isEvict : MAction → Bool
  | .evictK _ => true
  | _ => false

def settleProm (proms : List PromSt) (pid : Nat) (st : PromSt) : List PromSt :=
  match proms.get? pid with
  | some .pending => proms.set pid st
  | _ => proms

def execA (s : MState) : MAction → MState
  | .runT tid =>
    match s.tasks.get? tid with
    | none => s
    | some t => runTask s tid t
  | .netOk pid b => { s with proms := settleProm s.proms pid (.fulfilled b) }
  | .netErr pid => { s with proms := settleProm s.proms pid .rejectedP }
  | .evictK k => { s with cache := removeA s.cache k }

def runM (s : MState) (acts : List MAction) : MState :=
  acts.foldl execA s

/-- Number of issued fetches whose cache key is `k`. -/
def countFetches (log : List (String × Nat × Nat)) (k : String) : Nat :=
  (log.filter fun e => e.1 == k).length

/-- Initial machine state: `n` concurrent `xRead` requests, all for page
`page` of the file `fid` with known page size `p`, over a cold cache. -/
def initM (n fid p page : Nat) : MState :=
  { cache := [], proms := [],
    tasks := List.replicate n { fid := fid, p := p, page := page, pc := .start },
    fetchLog := [] }

/-!  Concrete scenario states and oracles used by the theorems. -/

/-- Fetch oracle of a dead network: every byte-range GET rejects. -/
def netFail : String → Nat → Nat → FetchOutcome := fun _ _ _ => .err

/-- Fetch oracle of a healthy server returning the requested count of
bytes, all 1. -/
def netUnit : String → Nat → Nat → FetchOutcome :=
  fun _ _ len => .ok (List.replicate len 1)

/-- Fetch oracle of a short 20-byte file whose header bytes 16 and 17 are
`hi` and `lo` (the big-endian page-size field of the database header). -/
def hdrNet (hi lo : Nat) : String → Nat → Nat → FetchOutcome :=
  fun _ _ _ => .ok (List.replicate 16 0 ++ [hi, lo] ++ [9, 9])

def fe8 : FileEntry := { url := "u", id := 1, size := 64, pageSize := some 8 }

def fe1024 : FileEntry := { url := "u", id := 1, size := 8192, pageSize := some 1024 }

def feNone : FileEntry := { url := "u", id := 1, size := 64, pageSize := none }

/-- Dispatcher state after `"u"` was opened as `fe`, with a cold page
cache of the default 1 MiB capacity. -/
def openState (fe : FileEntry) : SeqState :=
  { options := { maxPageSize := none, cacheSize := none },
    files := { maxF := 32, fentries := [("u", .fentry fe)] },
    fproms := [], nextId := 2,
    cache := { maxSize := 1024 * 1024, entries := [] },
    proms := [], fetchLog := [], probeLog := [] }

/-- Opened but page size still unknown (before the first read). -/
def discState : SeqState := openState feNone

/-- Page size 1024 known and page 0 resident (for the boundary-check
scenarios). -/
def c5state : SeqState :=
  { openState fe1024 with
      cache := { maxSize := 1024 * 1024,
                 entries := [("1|0", .data (List.replicate 128 3), 128)] } }

/-- Page 5 holds a stale reference to root page 3, which is absent
(evicted or never fit). -/
def c7state : SeqState :=
  { openState fe8 with
      cache := { maxSize := 1024 * 1024, entries := [("1|5", .num 3, 4)] } }

/-- As `c7state`, but page 4 additionally holds the rejected promise left
behind by an earlier failed fetch. -/
def c7poison : SeqState :=
  { openState fe8 with
      cache := { maxSize := 1024 * 1024,
                 entries := [("1|5", .num 3, 4), ("1|4", .prom 0, 4)] },
      proms := [.rejectedP] }

/-- No file opened yet. -/
def emptyState : SeqState :=
  { openState fe8 with files := { maxF := 32, fentries := [] } }

/-- HEAD probe answering 404 (a non-2xx status) with a Content-Length. -/
def probe404 : String → ProbeOutcome := fun _ => .response 404 false (some 64)

/-- HEAD probe failing with a network error. -/
def probeFail : String → ProbeOutcome := fun _ => .netError

/-- State after an `xOpen "u"` whose probe rejected. -/
def poisState : SeqState := (xOpenSeq probeFail emptyState "u").1

/-- State after sequentially reading pages 0, 1, 2, 3 of an 8-byte-page
file from a cold cache. -/
def c4seqState : SeqState :=
  (xReadSeq netUnit
    (xReadSeq netUnit
      (xReadSeq netUnit
        (xReadSeq netUnit (openState fe8) "u" 0 8).1 "u" 8 8).1 "u" 16 8).1
    "u" 24 8).1

/-- State after reading pages 0, 5, 2 (non-sequential) from a cold cache. -/
def c4randState : SeqState :=
  (xReadSeq netUnit
    (xReadSeq netUnit
      (xReadSeq netUnit (openState fe8) "u" 0 8).1 "u" 40 8).1 "u" 16 8).1

/-- `xRead`'s registry recency bump (`files.get(msg.url)`). -/
def bumpF (s : SeqState) (url : String) : SeqState :=
  { s with files := (s.files.fget url).2 }

/-- Machine tasks for the single-flight counterexample: task 0 reads
page 0; tasks 1 and 2 read page 1 concurrently. -/
def cexTasks : List MTask :=
  [{ fid := 1, p := 8, page := 0, pc := .start },
   { fid := 1, p := 8, page := 1, pc := .start },
   { fid := 1, p := 8, page := 1, pc := .start }]

def cexInit : MState := { cache := [], proms := [], tasks := cexTasks, fetchLog := [] }

/-- Schedule: all three tasks run to their first suspension, page 0's
fetch resolves, then tasks 1 and 2 resume; no eviction anywhere. -/
def cexActs : List MAction :=
  [.runT 0, .runT 1, .runT 2, .netOk 0 (List.replicate 8 1), .runT 1, .runT 2]

/-- A schedule for the cold same-key scenario (witness input). -/
def skActs : List MAction :=
  [.runT 0, .runT 1, .runT 2, .netOk 0 (List.replicate 8 1),
   .runT 0, .runT 1, .runT 2, .runT 1]

/-- Task continuations reachable in the cold same-key runs: initial, the
single joined await, the single fetch suspension with the one-page chunk,
or finished. -/
def pcOK1 (p : Nat) (pc : TPC) : Prop :=
  pc = .start ∨ pc = .s1 (.direct 0) ∨ pc = .s5 0 p ∨ ∃ x, pc = .doneT x

/-- Invariant of the cold same-key runs: either nothing has run (phase A)
or exactly one fetch was issued for the key, whose promise is cache entry
and promise-table singleton (phase B). -/
def inv1 (fid p page : Nat) (s : MState) : Prop :=
  (∀ t ∈ s.tasks, t.fid = fid ∧ t.p = p ∧ t.page = page) ∧
  ((s.cache = [] ∧ s.proms = [] ∧ s.fetchLog = [] ∧ ∀ t ∈ s.tasks, t.pc = .start) ∨
   ((∃ st len, s.fetchLog = [(ckey fid page, st, len)]) ∧
    (∃ v, s.cache = [(ckey fid page, v)] ∧ (v = .prom 0 ∨ ∃ b, v = .data b)) ∧
    (∃ q, s.proms = [q]) ∧
    ∀ t ∈ s.tasks, pcOK1 p t.pc))

end VfsWorker

namespace VfsWorker

theorem cacheTotal_cons (e : String × CVal × Nat) (es : List (String × CVal × Nat)) :
    cacheTotal (e :: es) = e.2.2 + cacheTotal es := by
  simp [cacheTotal]

theorem cacheTotal_append (xs ys : List (String × CVal × Nat)) :
    cacheTotal (xs ++ ys) = cacheTotal xs + cacheTotal ys := by
  simp [cacheTotal]

theorem evictToFit_le (m : Nat) (es : List (String × CVal × Nat)) :
    cacheTotal (evictToFit m es) ≤ m := by
  induction es with
  | nil => simp [evictToFit, cacheTotal]
  | cons e rest ih =>
    simp only [evictToFit]
    split
    · exact ih
    · omega

theorem evictToFit_suffix (m : Nat) (es : List (String × CVal × Nat)) :
    ∃ t, t ++ evictToFit m es = es := by
  induction es with
  | nil => exact ⟨[], rfl⟩
  | cons e rest ih =>
    simp only [evictToFit]
    split
    · obtain ⟨t, ht⟩ := ih
      exact ⟨e :: t, by simp [ht]⟩
    · exact ⟨[], rfl⟩

theorem cacheTotal_filter_le (p : String × CVal × Nat → Bool)
    (es : List (String × CVal × Nat)) :
    cacheTotal (es.filter p) ≤ cacheTotal es := by
  induction es with
  | nil => simp
  | cons e rest ih =>
    by_cases h : p e <;> simp [List.filter_cons, h, cacheTotal_cons] <;> omega

theorem cacheTotal_removeKey_le (k : String) (es : List (String × CVal × Nat)) :
    cacheTotal (removeKey k es) ≤ cacheTotal es :=
  cacheTotal_filter_le _ es

theorem cacheTotal_find_removeKey (k : String) (es : List (String × CVal × Nat))
    (e : String × CVal × Nat) (h : es.find? (fun x => x.1 == k) = some e) :
    cacheTotal (removeKey k es) + e.2.2 ≤ cacheTotal es := by
  induction es with
  | nil => simp at h
  | cons x rest ih =>
    rw [List.find?_cons] at h
    by_cases hx : x.1 = k
    · simp only [hx, beq_self_eq_true] at h
      have hxe : x = e := by injection h
      subst hxe
      have : removeKey k (x :: rest) = removeKey k rest := by
        simp [removeKey, List.filter_cons, hx]
      rw [this, cacheTotal_cons]
      have := cacheTotal_removeKey_le k rest
      omega
    · have hbeq : (x.1 == k) = false := beq_eq_false_iff_ne.mpr hx
      rw [hbeq] at h
      simp at h
      have := ih h
      have hkeep : removeKey k (x :: rest) = x :: removeKey k rest := by
        simp [removeKey, List.filter_cons, hx]
      rw [hkeep, cacheTotal_cons, cacheTotal_cons]
      omega

theorem set_total_le (c : SCache) (k : String) (v : CVal)
    (hms : c.maxSize ≠ 0) (hc : cacheTotal c.entries ≤ c.maxSize) :
    cacheTotal (c.set k v).entries ≤ c.maxSize := by
  unfold SCache.set
  split_ifs with h1 h2
  · exact hc
  · exact le_trans (cacheTotal_removeKey_le k c.entries) hc
  · exact evictToFit_le _ _

theorem get_total_le (c : SCache) (k : String)
    (hc : cacheTotal c.entries ≤ c.maxSize) :
    cacheTotal (c.get k).2.entries ≤ c.maxSize := by
  unfold SCache.get
  cases hfind : c.entries.find? fun e => e.1 == k with
  | none => simpa using hc
  | some e =>
    simp only
    rw [cacheTotal_append]
    have h1 := cacheTotal_find_removeKey k c.entries e hfind
    have h2 : cacheTotal [e] = e.2.2 := by simp [cacheTotal]
    omega

theorem applyCacheOp_maxSize (c : SCache) (op : CacheOp) :
    (applyCacheOp c op).maxSize = c.maxSize := by
  cases op with
  | cset k v =>
    simp only [applyCacheOp, SCache.set]
    split
    · rfl
    · split
      · rfl
      · split <;> rfl
  | cget k =>
    simp only [applyCacheOp, SCache.get]
    cases c.entries.find? fun e => e.1 == k <;> rfl
  | cdel k => rfl

theorem applyCacheOp_total_le (c : SCache) (op : CacheOp)
    (hms : c.maxSize ≠ 0) (hc : cacheTotal c.entries ≤ c.maxSize) :
    cacheTotal (applyCacheOp c op).entries ≤ c.maxSize := by
  cases op with
  | cset k v => exact set_total_le c k v hms hc
  | cget k => exact get_total_le c k hc
  | cdel k => exact le_trans (cacheTotal_removeKey_le k c.entries) hc

theorem applyCacheOps_bounded (ops : List CacheOp) (c : SCache)
    (hms : c.maxSize ≠ 0) (hc : cacheTotal c.entries ≤ c.maxSize) :
    cacheTotal (applyCacheOps c ops).entries ≤ c.maxSize := by
  induction ops generalizing c with
  | nil => exact hc
  | cons op rest ih =>
    have h1 := applyCacheOp_total_le c op hms hc
    have h2 := applyCacheOp_maxSize c op
    have := ih (applyCacheOp c op) (by rw [h2]; exact hms) (by rw [h2]; exact h1)
    rw [applyCacheOps] at *
    simpa [h2] using this

/-- Claim C2: after any sequence of cache `set`/`get`/`delete` calls (hence
after any sequence of `xRead` operations) starting from the cache configured
by `init`, the total resident byte size (sum of the `sizeCalculation` values
of all stored entries) never exceeds `cacheSize * 1024`; and inserting an
entry evicts least-recently-used entries (a prefix of the recency list) until
the insertion fits under the capacity. -/
theorem cache_bounded (cacheSize : Nat) (hpos : 0 < cacheSize)
    (ops : List CacheOp) :
    cacheTotal (applyCacheOps (initCache cacheSize) ops).entries ≤ cacheSize * 1024 ∧
    (∀ c : SCache, ∀ k v, c.maxSize = cacheSize * 1024 →
      sizeCalculation v ≠ 0 → ¬ sizeCalculation v > c.maxSize →
      (∃ dropped, dropped ++ (c.set k v).entries =
          removeKey k c.entries ++ [(k, v, sizeCalculation v)]) ∧
      cacheTotal (c.set k v).entries ≤ cacheSize * 1024) := by
  constructor
  · have hms : (initCache cacheSize).maxSize ≠ 0 := by
      simp [initCache]
      omega
    exact applyCacheOps_bounded ops (initCache cacheSize) hms (by simp [initCache, cacheTotal])
  · intro c k v hmax hsz hfit
    have hms : c.maxSize ≠ 0 := by rw [hmax]; positivity
    constructor
    · unfold SCache.set
      simp only [hsz, if_false]
      rw [if_neg (by tauto), if_neg hms]
      exact evictToFit_suffix _ _
    · rw [← hmax]
      unfold SCache.set
      simp only [hsz, if_false]
      rw [if_neg (by tauto), if_neg hms]
      exact evictToFit_le _ _

theorem find?_key_filter_ne {β : Type} (k k2 : String) (hne : k2 ≠ k)
    (es : List (String × β)) :
    ((es.filter fun e => e.1 ≠ k).find? fun e => e.1 == k2) =
      es.find? fun e => e.1 == k2 := by
  induction es with
  | nil => rfl
  | cons x rest ih =>
    by_cases hx : x.1 = k
    · have hp : (decide (x.1 ≠ k)) = false := by simp [hx]
      have hq : (x.1 == k2) = false := by
        simp [hx]
        exact Ne.symm hne
      simp only [List.filter_cons, hp, if_neg, List.find?_cons, hq]
      simpa [List.find?_cons, hq] using ih
    · have hp : (decide (x.1 ≠ k)) = true := by simp [hx]
      simp only [List.filter_cons, hp, if_pos, List.find?_cons]
      cases hq : x.1 == k2 with
      | true => simp [List.find?_cons, hq]
      | false => simpa [List.find?_cons, hq] using ih

theorem peek_get_none (c : SCache) (k : String) (h : c.peek k = none) :
    c.get k = (none, c) := by
  unfold SCache.peek at h
  unfold SCache.get
  cases hf : c.entries.find? fun e => e.1 == k with
  | none => rfl
  | some e => rw [hf] at h; simp at h

theorem peek_get_some (c : SCache) (k : String) (v : CVal)
    (h : c.peek k = some v) :
    ∃ sz, (c.entries.find? fun e => e.1 == k) = some (k, v, sz) ∧
      c.get k = (some v, { c with entries := removeKey k c.entries ++ [(k, v, sz)] }) := by
  unfold SCache.peek at h
  cases hf : c.entries.find? fun e => e.1 == k with
  | none => rw [hf] at h; simp at h
  | some e =>
    rw [hf] at h
    have h1 : e.2.1 = v := by simpa using h
    have h2 : e.1 = k := by simpa using List.find?_some hf
    have he : e = (k, v, e.2.2) := by
      obtain ⟨e1, ev, esz⟩ := e
      simp_all
    refine ⟨e.2.2, ?_, ?_⟩
    · exact congrArg some he
    · unfold SCache.get
      rw [hf]
      rw [he]

theorem get_snd_maxSize (c : SCache) (k : String) :
    (c.get k).2.maxSize = c.maxSize := by
  unfold SCache.get
  cases c.entries.find? fun e => e.1 == k <;> rfl

theorem peek_get_ne (c : SCache) (k k2 : String) (hne : k2 ≠ k) :
    (c.get k).2.peek k2 = c.peek k2 := by
  unfold SCache.get
  cases hf : c.entries.find? fun e => e.1 == k with
  | none => rfl
  | some e =>
    unfold SCache.peek
    simp only
    rw [List.find?_append]
    unfold removeKey
    rw [find?_key_filter_ne k k2 hne]
    cases hf2 : c.entries.find? fun e => e.1 == k2 with
    | some a => rfl
    | none =>
      have hk : e.1 = k := by simpa using List.find?_some hf
      have : (e.1 == k2) = false := by simp [hk]; exact Ne.symm hne
      simp [List.find?_cons, this]

theorem fget_fst (c : FCache) (url : String) :
    (c.fget url).1 = lookupF c url := by
  unfold FCache.fget lookupF
  cases hf : c.fentries.find? fun e => e.1 == url <;> simp [hf]

theorem find?_key_filter_self {β : Type} (k : String) (es : List (String × β)) :
    ((es.filter fun e => e.1 ≠ k).find? fun e => e.1 == k) = none := by
  rw [List.find?_eq_none]
  intro x hx
  have := (List.mem_filter.mp hx).2
  simp at this ⊢
  exact this

theorem lookupF_fget_self (c : FCache) (url : String) :
    lookupF (c.fget url).2 url = lookupF c url := by
  unfold FCache.fget
  cases hf : c.fentries.find? fun e => e.1 == url with
  | none => rfl
  | some e =>
    unfold lookupF
    simp only
    rw [List.find?_append, find?_key_filter_self]
    have hk : e.1 = url := by simpa using List.find?_some hf
    simp [List.find?_cons, hk, hf]

theorem xReadSeq_known (net : String → Nat → Nat → FetchOutcome) (s : SeqState)
    (url : String) (fe : FileEntry) (q : Nat) (offset n : Nat)
    (hf : lookupF s.files url = some (.fentry fe))
    (hq : fe.pageSize = some q) (h0 : q ≠ 0) :
    xReadSeq net s url offset n = xReadKnown net (bumpF s url) url fe.id q offset n := by
  have h1 : (s.files.fget url).1 = some (.fentry fe) := by rw [fget_fst]; exact hf
  have hps : psUnknown fe = false := by
    unfold psUnknown
    rw [hq]
    simpa using h0
  simp only [xReadSeq, bumpF, h1, hps, Bool.false_eq_true, if_false, hq,
    Option.getD_some]

theorem resolvePrev_files (s : SeqState) (fid p page : Nat) :
    (resolvePrev s fid p page).2.files = s.files := by
  simp only [resolvePrev]
  split
  · rfl
  · split <;> first | rfl | (split <;> rfl)

theorem xReadMiss_files (net : String → Nat → Nat → FetchOutcome) (s : SeqState)
    (url : String) (fid p page pageStart offset n : Nat) :
    (xReadMiss net s url fid p page pageStart offset n).1.files = s.files := by
  have h := resolvePrev_files s fid p page
  simp only [xReadMiss]
  split
  next s1 heq =>
    rw [← h, heq]
  next cs s1 heq =>
    have hs1 : s1.files = s.files := by rw [← h, heq]
    split
    · exact hs1
    · split
      · exact hs1
      · exact hs1

theorem xReadKnown_files (net : String → Nat → Nat → FetchOutcome) (s : SeqState)
    (url : String) (fid p offset n : Nat) :
    (xReadKnown net s url fid p offset n).1.files = s.files := by
  simp only [xReadKnown]
  split
  · rfl
  · split
    · rfl
    · split
      · rfl
      · rfl
      · split
        · rfl
        · rfl
        · exact xReadMiss_files net _ url fid p _ _ offset n
      · exact xReadMiss_files net _ url fid p _ _ offset n

theorem fget_none (c : FCache) (url : String) (h : lookupF c url = none) :
    c.fget url = (none, c) := by
  unfold lookupF at h
  unfold FCache.fget
  cases hf : c.fentries.find? fun e => e.1 == url with
  | none => rfl
  | some e => rw [hf] at h; simp at h

theorem find?_key_singleton {β : Type} (url : String) (v : β) :
    (List.find? (fun e => e.1 == url) [(url, v)]) = some (url, v) := by
  simp [List.find?_cons]

theorem lookupF_fset_self (c : FCache) (url : String) (v : FileVal) :
    lookupF (c.fset url v) url = some v := by
  unfold FCache.fset
  split_ifs with h1 h2
  · unfold lookupF
    simp only
    rw [List.find?_append, find?_key_filter_self, Option.none_or,
      find?_key_singleton]
    rfl
  · have hnone : c.fentries.find? (fun e => e.1 == url) = none := by
      cases hf : c.fentries.find? fun e => e.1 == url with
      | none => rfl
      | some e => rw [hf] at h1; simp at h1
    have htail : c.fentries.tail.find? (fun e => e.1 == url) = none := by
      rw [List.find?_eq_none]
      intro x hx
      exact List.find?_eq_none.mp hnone x (List.mem_of_mem_tail hx)
    unfold lookupF
    simp only
    rw [List.find?_append, htail, Option.none_or, find?_key_singleton]
    rfl
  · have hnone : c.fentries.find? (fun e => e.1 == url) = none := by
      cases hf : c.fentries.find? fun e => e.1 == url with
      | none => rfl
      | some e => rw [hf] at h1; simp at h1
    unfold lookupF
    simp only
    rw [List.find?_append, hnone, Option.none_or, find?_key_singleton]
    rfl

theorem xOpenSeq_ok (probe : String → ProbeOutcome) (s : SeqState)
    (url : String) (r : Nat) (h : (xOpenSeq probe s url).2 = .ok r) : r = 0 := by
  simp only [xOpenSeq] at h
  split at h
  · split at h <;> simp_all
  · simp_all
  · split at h <;> simp_all

theorem xAccessSeq_ok (probe : String → ProbeOutcome) (s : SeqState)
    (url : String) (r : Nat) (h : (xAccessSeq probe s url).2.2 = .ok r) : r = 0 := by
  unfold xAccessSeq at h
  split at h <;> simp_all

theorem xFilesizeSeq_ok (s : SeqState) (url : String) (r : Nat)
    (h : (xFilesizeSeq s url).2.2 = .ok r) : r = 0 := by
  simp only [xFilesizeSeq] at h
  split at h
  · simp_all
  · split at h <;> simp_all
  · simp_all

/-- Witness for C2 at a concrete input: capacity 1 KiB, a sequence of sets
that overflows it, and a concrete oversized-then-fitting insertion. -/
theorem cache_bounded_witness :
    0 < 1 ∧
    (cacheTotal (applyCacheOps (initCache 1)
        [.cset "1|0" (.data (List.replicate 600 7)),
         .cset "1|1" (.data (List.replicate 600 8)),
         .cget "1|0",
         .cdel "1|1"]).entries ≤ 1 * 1024 ∧
      (∀ c : SCache, ∀ k v, c.maxSize = 1 * 1024 →
        sizeCalculation v ≠ 0 → ¬ sizeCalculation v > c.maxSize →
        (∃ dropped, dropped ++ (c.set k v).entries =
            removeKey k c.entries ++ [(k, v, sizeCalculation v)]) ∧
        cacheTotal (c.set k v).entries ≤ 1 * 1024)) :=
  ⟨Nat.one_pos, cache_bounded 1 Nat.one_pos _⟩

theorem evictToFit_keeps_last (m : Nat) (es : List (String × CVal × Nat))
    (e : String × CVal × Nat) (he : e.2.2 ≤ m) :
    ∃ t, evictToFit m (es ++ [e]) = t ++ [e] ∧ ∀ x ∈ t, x ∈ es := by
  induction es with
  | nil =>
    refine ⟨[], ?_, by simp⟩
    have h1 : cacheTotal [e] = e.2.2 := by simp [cacheTotal]
    simp only [List.nil_append, evictToFit, h1]
    rw [if_neg (by omega)]
  | cons x rest ih =>
    rw [List.cons_append]
    simp only [evictToFit]
    split
    · obtain ⟨t, ht, hmem⟩ := ih
      exact ⟨t, ht, fun y hy => List.mem_cons_of_mem x (hmem y hy)⟩
    · exact ⟨x :: rest, rfl, fun y hy => hy⟩

theorem peek_set_self (c : SCache) (k : String) (v : CVal)
    (hvz : sizeCalculation v ≠ 0) (hfit : sizeCalculation v ≤ c.maxSize)
    (hms : c.maxSize ≠ 0) :
    (c.set k v).peek k = some v := by
  unfold SCache.set
  rw [if_neg hvz, if_neg (by omega), if_neg hms]
  obtain ⟨t, ht, hmem⟩ := evictToFit_keeps_last c.maxSize (removeKey k c.entries)
    (k, v, sizeCalculation v) hfit
  unfold SCache.peek
  simp only [ht]
  rw [List.find?_append]
  have hn : t.find? (fun e => e.1 == k) = none := by
    rw [List.find?_eq_none]
    intro x hx
    have hxm := hmem x hx
    have hne : x.1 ≠ k := by
      have := (List.mem_filter.mp hxm).2
      simpa using this
    simpa using hne
  rw [hn, Option.none_or, find?_key_singleton]
  rfl

theorem resolvePrev_simple (s : SeqState) (fid p page : Nat)
    (h : page = 0 ∨ s.cache.peek (ckey fid (page - 1)) = none) :
    resolvePrev s fid p page = (some p, s) := by
  simp only [resolvePrev]
  by_cases hp0 : page = 0
  · rw [if_pos hp0]
  · rcases h with h | h
    · exact absurd h hp0
    · rw [if_neg hp0, peek_get_none _ _ h]
      simp [resolveCVal]

theorem resolvePrev_data (s : SeqState) (fid p page : Nat) (b : List Nat)
    (hp0 : page ≠ 0)
    (h : s.cache.peek (ckey fid (page - 1)) = some (.data b)) :
    (resolvePrev s fid p page).1 = some (2 * b.length) ∧
    (resolvePrev s fid p page).2.fetchLog = s.fetchLog ∧
    (resolvePrev s fid p page).2.proms = s.proms := by
  obtain ⟨sz, hfind, hget⟩ := peek_get_some _ _ _ h
  refine ⟨?_, ?_, ?_⟩ <;>
    (simp only [resolvePrev]
     rw [if_neg hp0, hget]
     simp [resolveCVal])

theorem resolvePrev_num (s : SeqState) (fid p page r : Nat)
    (hp0 : page ≠ 0)
    (h : s.cache.peek (ckey fid (page - 1)) = some (.num r))
    (hne : ckey fid r ≠ ckey fid (page - 1)) :
    (∀ b, s.cache.peek (ckey fid r) = some (.data b) →
      (resolvePrev s fid p page).1 = some (2 * b.length) ∧
      (resolvePrev s fid p page).2.fetchLog = s.fetchLog) ∧
    (s.cache.peek (ckey fid r) = none →
      (resolvePrev s fid p page).1 = some p ∧
      (resolvePrev s fid p page).2.fetchLog = s.fetchLog) := by
  obtain ⟨sz, hfind, hget⟩ := peek_get_some _ _ _ h
  constructor
  · intro b hroot
    have hroot1 : ((s.cache.get (ckey fid (page - 1))).2).peek (ckey fid r) =
        some (.data b) := by
      rw [peek_get_ne _ _ _ hne]
      exact hroot
    rw [hget] at hroot1
    obtain ⟨sz2, hfind2, hget2⟩ := peek_get_some _ _ _ hroot1
    refine ⟨?_, ?_⟩ <;>
      (simp only [resolvePrev]
       rw [if_neg hp0, hget]
       simp only [resolveCVal]
       try rw [hget2]
       try simp [resolveCVal])
  · intro hroot
    have hroot1 : ((s.cache.get (ckey fid (page - 1))).2).peek (ckey fid r) =
        none := by
      rw [peek_get_ne _ _ _ hne]
      exact hroot
    rw [hget] at hroot1
    refine ⟨?_, ?_⟩ <;>
      (simp only [resolvePrev]
       rw [if_neg hp0, hget]
       simp only [resolveCVal]
       try rw [peek_get_none _ _ hroot1]
       try simp [resolveCVal])

theorem xReadKnown_miss (net : String → Nat → Nat → FetchOutcome)
    (s : SeqState) (url : String) (fid p offset n : Nat)
    (hp : p ≠ 0) (hb : ¬ ((offset / p) * p + p < offset + n))
    (hmiss : s.cache.peek (ckey fid (offset / p)) = none) :
    xReadKnown net s url fid p offset n =
      xReadMiss net s url fid p (offset / p) ((offset / p) * p) offset n := by
  simp only [xReadKnown, hp, if_false]
  rw [if_neg hb, peek_get_none _ _ hmiss]
  simp [resolveCVal]

theorem xReadKnown_dangling (net : String → Nat → Nat → FetchOutcome)
    (s : SeqState) (url : String) (fid p offset n r : Nat)
    (hp : p ≠ 0) (hb : ¬ ((offset / p) * p + p < offset + n))
    (hpk : s.cache.peek (ckey fid (offset / p)) = some (.num r))
    (hroot : ((s.cache.get (ckey fid (offset / p))).2).peek (ckey fid r) = none) :
    xReadKnown net s url fid p offset n =
      xReadMiss net { s with cache := (s.cache.get (ckey fid (offset / p))).2 }
        url fid p (offset / p) ((offset / p) * p) offset n := by
  obtain ⟨sz, hfind, hget⟩ := peek_get_some _ _ _ hpk
  rw [hget] at hroot
  simp only [xReadKnown, hp, if_false]
  rw [if_neg hb, hget]
  simp only [resolveCVal]
  try rw [peek_get_none _ _ hroot]
  try simp [resolveCVal]

theorem xReadKnown_rejected (net : String → Nat → Nat → FetchOutcome)
    (s : SeqState) (url : String) (fid p offset n pid : Nat)
    (hp : p ≠ 0) (hb : ¬ ((offset / p) * p + p < offset + n))
    (hpk : s.cache.peek (ckey fid (offset / p)) = some (.prom pid))
    (hrej : s.proms.get? pid = some .rejectedP) :
    (xReadKnown net s url fid p offset n).2 = .error () ∧
    (xReadKnown net s url fid p offset n).1.fetchLog = s.fetchLog := by
  obtain ⟨sz, hfind, hget⟩ := peek_get_some _ _ _ hpk
  simp only [List.get?_eq_getElem?] at hrej
  simp only [xReadKnown, hp, if_false]
  rw [if_neg hb, hget]
  simp [resolveCVal, hrej]

theorem div_self_sub_one (p : Nat) : p / p - 1 = 0 := by
  rcases Nat.eq_zero_or_pos p with h | h
  · simp [h]
  · simp [Nat.div_self h]

theorem xReadMiss_err (net : String → Nat → Nat → FetchOutcome)
    (s : SeqState) (url : String) (fid p page pageStart offset n : Nat)
    (hprev : page = 0 ∨ s.cache.peek (ckey fid (page - 1)) = none)
    (hnet : net url pageStart p = .err) :
    xReadMiss net s url fid p page pageStart offset n =
      ({ s with
          fetchLog := s.fetchLog ++ [(ckey fid page, pageStart, p)],
          proms := s.proms ++ [.rejectedP],
          cache := s.cache.set (ckey fid page) (.prom s.proms.length) },
       .error ()) := by
  have hpr := resolvePrev_simple s fid p page hprev
  simp only [xReadMiss, hpr, hnet, setRefsProm, div_self_sub_one,
    List.range_zero, List.foldl_nil]

theorem xReadMiss_ok_onepage (net : String → Nat → Nat → FetchOutcome)
    (s : SeqState) (url : String) (fid p page pageStart offset n : Nat)
    (b : List Nat)
    (hprev : page = 0 ∨ s.cache.peek (ckey fid (page - 1)) = none)
    (hnet : net url pageStart p = .ok b) (hb : b.length ≠ 0) :
    xReadMiss net s url fid p page pageStart offset n =
      ({ s with
          fetchLog := s.fetchLog ++ [(ckey fid page, pageStart, p)],
          proms := s.proms ++ [.fulfilled b],
          cache := (s.cache.set (ckey fid page) (.prom s.proms.length)).set
            (ckey fid page) (.data b) },
       .ok (readSlice b pageStart offset n)) := by
  have hpr := resolvePrev_simple s fid p page hprev
  simp only [xReadMiss, hpr, hnet, setRefsProm, setRefsNum, div_self_sub_one,
    List.range_zero, List.foldl_nil, hb, if_neg]
  simp

theorem xReadMiss_log (net : String → Nat → Nat → FetchOutcome)
    (s : SeqState) (url : String) (fid p page pageStart offset n cs : Nat)
    (hpr : (resolvePrev s fid p page).1 = some cs) :
    (xReadMiss net s url fid p page pageStart offset n).1.fetchLog =
      (resolvePrev s fid p page).2.fetchLog ++ [(ckey fid page, pageStart, cs)] := by
  rcases hres : resolvePrev s fid p page with ⟨o, s2⟩
  rw [hres] at hpr
  simp only at hpr
  subst hpr
  simp only [xReadMiss, hres]
  cases hn : net url pageStart cs with
  | err => rfl
  | ok b =>
    by_cases hb : b.length = 0 <;> simp [hb]

/-- Claim C10 (implicit): once the `xOpen` probe for `url` rejected, the
rejected promise stays registered at `url` and every subsequent operation
on `url` awaits that same promise and delivers its failure outcome — error
status for `xOpen`/`xRead`/`xFilesize`, result 0 (not accessible) for
`xAccess` — while no new HEAD probe and no page fetch are ever issued; the
registry entry is never replaced, so the failure is not recoverable by
retrying (short of the entry being evicted from the 32-entry registry). -/
theorem failed_open_poisons (probe : String → ProbeOutcome)
    (net : String → Nat → Nat → FetchOutcome) (s : SeqState) (url : String)
    (pid : Nat) (offset n : Nat)
    (h1 : lookupF s.files url = some (.fprom pid))
    (h2 : s.fproms.get? pid = some .frejected) :
    ((xOpenSeq probe s url).2 = .error () ∧
      lookupF (xOpenSeq probe s url).1.files url = some (.fprom pid) ∧
      (xOpenSeq probe s url).1.fproms = s.fproms ∧
      (xOpenSeq probe s url).1.probeLog = s.probeLog) ∧
    ((xAccessSeq probe s url).2.1 = 0 ∧
      lookupF (xAccessSeq probe s url).1.files url = some (.fprom pid) ∧
      (xAccessSeq probe s url).1.fproms = s.fproms ∧
      (xAccessSeq probe s url).1.probeLog = s.probeLog) ∧
    ((xReadSeq net s url offset n).2 = .error () ∧
      lookupF (xReadSeq net s url offset n).1.files url = some (.fprom pid) ∧
      (xReadSeq net s url offset n).1.fproms = s.fproms ∧
      (xReadSeq net s url offset n).1.fetchLog = s.fetchLog ∧
      (xReadSeq net s url offset n).1.probeLog = s.probeLog) ∧
    ((xFilesizeSeq s url).2.2 = .error () ∧
      lookupF (xFilesizeSeq s url).1.files url = some (.fprom pid) ∧
      (xFilesizeSeq s url).1.fproms = s.fproms) := by
  have hg : (s.files.fget url).1 = some (.fprom pid) := by rw [fget_fst]; exact h1
  have hgs : lookupF (s.files.fget url).2 url = some (.fprom pid) := by
    rw [lookupF_fget_self]; exact h1
  have hopen : xOpenSeq probe s url = ({ s with files := (s.files.fget url).2 }, .error ()) := by
    simp only [xOpenSeq, hg, h2]
  refine ⟨?_, ?_, ?_, ?_⟩
  · rw [hopen]
    exact ⟨rfl, hgs, rfl, rfl⟩
  · unfold xAccessSeq
    rw [hopen]
    exact ⟨rfl, hgs, rfl, rfl⟩
  · have hread : xReadSeq net s url offset n =
        ({ s with files := (s.files.fget url).2 }, .error ()) := by
      simp only [xReadSeq, hg, h2]
    rw [hread]
    exact ⟨rfl, hgs, rfl, rfl, rfl⟩
  · have hfs : xFilesizeSeq s url =
        ({ s with files := (s.files.fget url).2 }, none, .error ()) := by
      simp only [xFilesizeSeq, hg, h2]
    rw [hfs]
    exact ⟨rfl, hgs, rfl⟩

/-- Witness for C10 at the concrete poisoned state left by an `xOpen`
whose probe rejected. -/
theorem failed_open_poisons_witness :
    lookupF poisState.files "u" = some (.fprom 0) ∧
    poisState.fproms.get? 0 = some .frejected ∧
    (xOpenSeq probeFail poisState "u").2 = .error () ∧
    (xReadSeq netUnit poisState "u" 0 8).1.fetchLog = poisState.fetchLog ∧
    (xAccessSeq probeFail poisState "u").2.1 = 0 := by
  have h1 : lookupF poisState.files "u" = some (.fprom 0) := by decide
  have h2 : poisState.fproms.get? 0 = some .frejected := by decide
  have h := failed_open_poisons probeFail netUnit poisState "u" 0 0 8 h1 h2
  exact ⟨h1, h2, h.1.1, h.2.2.1.2.2.2.1, h.2.1.1⟩

/-- Claim C9 counterexample: a HEAD probe answering 404 — a non-2xx
status — does not make `xOpen` fail: the source callback never inspects
`head.status`, so `xOpen` succeeds and stores a `FileEntry` built from the
response headers. -/
theorem xopen_non2xx_counterexample :
    probe404 "u" = .response 404 false (some 64) ∧ 299 < 404 ∧
    (xOpenSeq probe404 emptyState "u").2 = .ok 0 ∧
    lookupF (xOpenSeq probe404 emptyState "u").1.files "u" =
      some (.fentry { url := "u", id := 2, size := 64, pageSize := none }) := by
  exact ⟨rfl, by norm_num, rfl, rfl⟩

/-- Claim C9 (amended): `xOpen(url)` fails exactly when the HEAD probe
rejects (network error); any HTTP response — 2xx or not — makes it
succeed and store a `FileEntry` keyed by `url` (id `nextId`, size from
`Content-Length ?? 0`, page size unknown), and a subsequent `xOpen` of
the same `url` reuses the stored entry without issuing a new probe. -/
theorem xopen_behaviour (probe : String → ProbeOutcome) (s : SeqState)
    (url : String) :
    (lookupF s.files url = none → probe url = .netError →
      (xOpenSeq probe s url).2 = .error () ∧
      (xOpenSeq probe s url).1.probeLog = s.probeLog ++ [url]) ∧
    (∀ st ar cl, lookupF s.files url = none → probe url = .response st ar cl →
      (xOpenSeq probe s url).2 = .ok 0 ∧
      lookupF (xOpenSeq probe s url).1.files url =
        some (.fentry { url := url, id := s.nextId, size := cl.getD 0,
                        pageSize := none }) ∧
      (xOpenSeq probe s url).1.probeLog = s.probeLog ++ [url]) ∧
    (∀ fe, lookupF s.files url = some (.fentry fe) →
      (xOpenSeq probe s url).2 = .ok 0 ∧
      lookupF (xOpenSeq probe s url).1.files url = some (.fentry fe) ∧
      (xOpenSeq probe s url).1.probeLog = s.probeLog) := by
  refine ⟨?_, ?_, ?_⟩
  · intro habs hp
    have hg : s.files.fget url = (none, s.files) := fget_none s.files url habs
    refine ⟨?_, ?_⟩ <;> simp only [xOpenSeq, hg, hp]
  · intro st ar cl habs hp
    have hg : s.files.fget url = (none, s.files) := fget_none s.files url habs
    refine ⟨?_, ?_, ?_⟩ <;> simp only [xOpenSeq, hg, hp]
    exact lookupF_fset_self _ url _
  · intro fe hf
    have hg : (s.files.fget url).1 = some (.fentry fe) := by
      rw [fget_fst]; exact hf
    have hgs : lookupF (s.files.fget url).2 url = some (.fentry fe) := by
      rw [lookupF_fget_self]; exact hf
    refine ⟨?_, ?_, ?_⟩ <;> simp only [xOpenSeq, hg]
    exact hgs

/-- Witness for C9's amended theorem at concrete inputs: a failing probe,
a 404 probe and an idempotent re-open. -/
theorem xopen_behaviour_witness :
    ((xOpenSeq probeFail emptyState "u").2 = .error () ∧
      (xOpenSeq probeFail emptyState "u").1.probeLog =
        emptyState.probeLog ++ ["u"]) ∧
    ((xOpenSeq probe404 emptyState "u").2 = .ok 0 ∧
      (xOpenSeq probe404 (xOpenSeq probe404 emptyState "u").1 "u").2 = .ok 0 ∧
      (xOpenSeq probe404 (xOpenSeq probe404 emptyState "u").1 "u").1.probeLog =
        (xOpenSeq probe404 emptyState "u").1.probeLog) := by
  have h1 := (xopen_behaviour probeFail emptyState "u").1 (by decide) (by decide)
  have h2 := (xopen_behaviour probe404 emptyState "u").2.1 404 false (some 64)
    (by decide) (by decide)
  have h3 := (xopen_behaviour probe404 (xOpenSeq probe404 emptyState "u").1 "u").2.2
    { url := "u", id := 2, size := 64, pageSize := none } (by decide)
  exact ⟨⟨h1.1, h1.2⟩, h2.1, h3.1, h3.2.2⟩

/-- Claim C8: for every data message, `workMessage` performs exactly one
status store followed by exactly one notify — the handler's return value
on success (always 0 for the four backend methods) and the single generic
code 1 for any thrown error, whatever the error value was; no other error
detail is transmitted. -/
theorem dispatcher_status (probe : String → ProbeOutcome)
    (net : String → Nat → Nat → FetchOutcome) :
    (∀ (ε : Type) (res : Except ε Nat),
      workMessage res = [.store (statusOf res), .notify] ∧
      ((workMessage res).filter isStore).length = 1 ∧
      ((workMessage res).filter isNotify).length = 1) ∧
    (∀ (s : SeqState) (m : Msg) (r : Nat),
      (runMsg probe net s m).2 = .ok r → r = 0) := by
  constructor
  · intro ε res
    cases res <;> simp [workMessage, statusOf, isStore, isNotify]
  · intro s m r h
    cases m with
    | mOpen url => exact xOpenSeq_ok probe s url r h
    | mAccess url =>
      simp only [runMsg] at h
      exact xAccessSeq_ok probe s url r h
    | mRead url offset n =>
      simp only [runMsg] at h
      cases hx : (xReadSeq net s url offset n).2 with
      | ok b => rw [hx] at h; simp [Except.map] at h; omega
      | error e => rw [hx] at h; simp [Except.map] at h
    | mFilesize url =>
      simp only [runMsg] at h
      exact xFilesizeSeq_ok s url r h

/-- Witness for C8 at concrete inputs: a success and a failure outcome,
and a concrete message whose handler returns 0. -/
theorem dispatcher_status_witness :
    workMessage (Except.ok (ε := String) 0) = [.store 0, .notify] ∧
    workMessage (Except.error (α := Nat) "boom") = [.store 1, .notify] ∧
    (runMsg probe404 netUnit emptyState (.mOpen "u")).2 = .ok 0 := by
  have h1 := (dispatcher_status probe404 netUnit).1 String (.ok 0)
  have h2 := (dispatcher_status probe404 netUnit).1 String (.error "boom")
  have hok : (runMsg probe404 netUnit emptyState (.mOpen "u")).2 = .ok 0 := by rfl
  have h3 := (dispatcher_status probe404 netUnit).2 emptyState (.mOpen "u") 0 hok
  exact ⟨h1.1, h2.1, hok⟩

/-- Claim C5: once the page size `p` is known, `xRead(url, offset, n)`
fails exactly when `[offset, offset + n)` extends past the end of the page
containing `offset`, i.e. when `(offset / p) * p + p < offset + n`; a
misaligned offset whose range stays within one page is only logged and the
read succeeds (shown for a resident page).  Concretely, with `p = 1024`,
`read(100, 1024)` fails and `read(100, 10)` succeeds. -/
theorem cross_page_read (net : String → Nat → Nat → FetchOutcome)
    (s : SeqState) (url : String) (fe : FileEntry) (p offset n : Nat)
    (hf : lookupF s.files url = some (.fentry fe))
    (hq : fe.pageSize = some p) (h0 : p ≠ 0) :
    ((offset / p) * p + p < offset + n →
      (xReadSeq net s url offset n).2 = .error ()) ∧
    (¬ ((offset / p) * p + p < offset + n) →
      ∀ b, s.cache.peek (ckey fe.id (offset / p)) = some (.data b) →
        (xReadSeq net s url offset n).2 =
          .ok (readSlice b ((offset / p) * p) offset n)) ∧
    (xReadSeq netUnit c5state "u" 100 1024).2 = .error () ∧
    (xReadSeq netUnit c5state "u" 100 10).2 = .ok (List.replicate 10 3) := by
  refine ⟨?_, ?_, by rfl, by rfl⟩
  · intro hb
    rw [xReadSeq_known net s url fe p offset n hf hq h0]
    simp only [xReadKnown, h0, if_false, bumpF]
    rw [if_pos hb]
  · intro hb b hpk
    rw [xReadSeq_known net s url fe p offset n hf hq h0]
    obtain ⟨sz, hfind, hget⟩ := peek_get_some s.cache (ckey fe.id (offset / p)) _ hpk
    simp only [xReadKnown, h0, if_false, bumpF]
    rw [if_neg hb]
    have hgc : ({ s with files := (s.files.fget url).2 } : SeqState).cache = s.cache := rfl
    rw [hgc, hget]
    simp [resolveCVal]

/-- Claim C3 counterexample: after a failed byte-range fetch the Pending
entry is NOT removed — the rejected promise remains registered at
fileId|page — and a retry of the same page issues no fresh fetch: it
awaits the same rejected promise and fails again. -/
theorem fetch_failure_counterexample :
    (xReadSeq netFail (openState fe8) "u" 0 8).2 = .error () ∧
    (xReadSeq netFail (openState fe8) "u" 0 8).1.cache.entries =
      [(ckey 1 0, .prom 0, 4)] ∧
    (xReadSeq netFail (openState fe8) "u" 0 8).1.fetchLog = [(ckey 1 0, 0, 8)] ∧
    (xReadSeq netFail (xReadSeq netFail (openState fe8) "u" 0 8).1 "u" 0 8).2 =
      .error () ∧
    (xReadSeq netFail (xReadSeq netFail (openState fe8) "u" 0 8).1 "u" 0 8).1.fetchLog =
      [(ckey 1 0, 0, 8)] :=
  ⟨rfl, rfl, rfl, rfl, rfl⟩

/-- Claim C3 (amended): for an `xRead` that misses the cache and whose
byte-range fetch fails, the error propagates as the generic failure
status, but the Pending entry is not removed: the rejected promise remains
registered at fileId|page, and a retry of the same page awaits that same
rejected promise and fails again without issuing a fresh fetch (until the
entry is evicted). -/
theorem fetch_failure_behaviour (net : String → Nat → Nat → FetchOutcome)
    (s : SeqState) (url : String) (fe : FileEntry) (p offset n : Nat)
    (hf : lookupF s.files url = some (.fentry fe))
    (hq : fe.pageSize = some p) (h0 : p ≠ 0)
    (hb : ¬ ((offset / p) * p + p < offset + n))
    (hmiss : s.cache.peek (ckey fe.id (offset / p)) = none)
    (hprev : offset / p = 0 ∨ s.cache.peek (ckey fe.id (offset / p - 1)) = none)
    (hnet : net url ((offset / p) * p) p = .err)
    (hsz : 4 ≤ s.cache.maxSize) :
    (xReadSeq net s url offset n).2 = .error () ∧
    (xReadSeq net s url offset n).1.fetchLog =
      s.fetchLog ++ [(ckey fe.id (offset / p), (offset / p) * p, p)] ∧
    (xReadSeq net s url offset n).1.cache.peek (ckey fe.id (offset / p)) =
      some (.prom s.proms.length) ∧
    (xReadSeq net s url offset n).1.proms.get? s.proms.length =
      some .rejectedP ∧
    (xReadSeq net (xReadSeq net s url offset n).1 url offset n).2 = .error () ∧
    (xReadSeq net (xReadSeq net s url offset n).1 url offset n).1.fetchLog =
      (xReadSeq net s url offset n).1.fetchLog := by
  have hred := xReadSeq_known net s url fe p offset n hf hq h0
  have hknown := xReadKnown_miss net (bumpF s url) url fe.id p offset n h0 hb hmiss
  have herr := xReadMiss_err net (bumpF s url) url fe.id p (offset / p)
    ((offset / p) * p) offset n hprev hnet
  have heq : xReadSeq net s url offset n =
      ({ bumpF s url with
          fetchLog := s.fetchLog ++ [(ckey fe.id (offset / p), (offset / p) * p, p)],
          proms := s.proms ++ [.rejectedP],
          cache := s.cache.set (ckey fe.id (offset / p)) (.prom s.proms.length) },
       .error ()) := by
    rw [hred, hknown, herr]
    rfl
  have hpeek : (xReadSeq net s url offset n).1.cache.peek (ckey fe.id (offset / p)) =
      some (.prom s.proms.length) := by
    rw [heq]
    exact peek_set_self _ _ _ (by simp [sizeCalculation])
      (by simpa [sizeCalculation] using hsz) (by omega)
  have hrej : (xReadSeq net s url offset n).1.proms.get? s.proms.length =
      some .rejectedP := by
    rw [heq]
    exact List.get?_concat_length _ _
  have hf1 : lookupF (xReadSeq net s url offset n).1.files url = some (.fentry fe) := by
    rw [heq]
    show lookupF (s.files.fget url).2 url = _
    rw [lookupF_fget_self]
    exact hf
  have hred2 := xReadSeq_known net (xReadSeq net s url offset n).1 url fe p
    offset n hf1 hq h0
  have hrej2 := xReadKnown_rejected net (bumpF (xReadSeq net s url offset n).1 url)
    url fe.id p offset n s.proms.length h0 hb hpeek hrej
  refine ⟨by rw [heq], by rw [heq], hpeek, hrej, ?_, ?_⟩
  · rw [hred2]
    exact hrej2.1
  · rw [hred2]
    exact hrej2.2

/-- Witness for C3's amended theorem at the concrete cold state with a
dead network. -/
theorem fetch_failure_behaviour_witness :
    (xReadSeq netFail (openState fe8) "u" 0 8).2 = .error () ∧
    (xReadSeq netFail (openState fe8) "u" 0 8).1.fetchLog =
      (openState fe8).fetchLog ++ [(ckey 1 0, 0, 8)] ∧
    (xReadSeq netFail (openState fe8) "u" 0 8).1.cache.peek (ckey 1 0) =
      some (.prom 0) ∧
    (xReadSeq netFail (openState fe8) "u" 0 8).1.proms.get? 0 =
      some .rejectedP ∧
    (xReadSeq netFail (xReadSeq netFail (openState fe8) "u" 0 8).1 "u" 0 8).2 =
      .error () ∧
    (xReadSeq netFail (xReadSeq netFail (openState fe8) "u" 0 8).1 "u" 0 8).1.fetchLog =
      (xReadSeq netFail (openState fe8) "u" 0 8).1.fetchLog :=
  fetch_failure_behaviour netFail (openState fe8) "u" fe8 8 0 8 rfl rfl
    (by decide) (by decide) rfl (Or.inl rfl) rfl (by decide)

/-- Claim C4: on an `xRead` cache miss, the issued fetch is exactly one
page long when the requested page is 0 or page-1 does not resolve to
resident data, and exactly twice the byte length of the resident chunk
containing page-1 otherwise; consequently reading pages 0,1,2,3
sequentially from a cold cache yields geometrically growing fetches of 1,
2 and 4 pages (page 2 is already covered by page 1's chunk), while the
non-sequential pattern 0,5,2 keeps every fetch at one page. -/
theorem coalescing_chunk_size (net : String → Nat → Nat → FetchOutcome)
    (s : SeqState) (url : String) (fid p page pageStart offset n : Nat) :
    ((page = 0 ∨ s.cache.peek (ckey fid (page - 1)) = none) →
      (xReadMiss net s url fid p page pageStart offset n).1.fetchLog =
        s.fetchLog ++ [(ckey fid page, pageStart, p)]) ∧
    (∀ b, page ≠ 0 → s.cache.peek (ckey fid (page - 1)) = some (.data b) →
      (xReadMiss net s url fid p page pageStart offset n).1.fetchLog =
        s.fetchLog ++ [(ckey fid page, pageStart, 2 * b.length)]) ∧
    (∀ r, page ≠ 0 → s.cache.peek (ckey fid (page - 1)) = some (.num r) →
      ckey fid r ≠ ckey fid (page - 1) →
      ((∀ b, s.cache.peek (ckey fid r) = some (.data b) →
        (xReadMiss net s url fid p page pageStart offset n).1.fetchLog =
          s.fetchLog ++ [(ckey fid page, pageStart, 2 * b.length)]) ∧
       (s.cache.peek (ckey fid r) = none →
        (xReadMiss net s url fid p page pageStart offset n).1.fetchLog =
          s.fetchLog ++ [(ckey fid page, pageStart, p)]))) ∧
    c4seqState.fetchLog =
      [(ckey 1 0, 0, 8), (ckey 1 1, 8, 16), (ckey 1 3, 24, 32)] ∧
    c4randState.fetchLog =
      [(ckey 1 0, 0, 8), (ckey 1 5, 40, 8), (ckey 1 2, 16, 8)] := by
  refine ⟨?_, ?_, ?_, by rfl, by rfl⟩
  · intro h
    have hpr := resolvePrev_simple s fid p page h
    have hl := xReadMiss_log net s url fid p page pageStart offset n p (by rw [hpr])
    simpa [hpr] using hl
  · intro b hp0 hdata
    obtain ⟨h1, h2, h3⟩ := resolvePrev_data s fid p page b hp0 hdata
    have hl := xReadMiss_log net s url fid p page pageStart offset n _ h1
    rw [h2] at hl
    exact hl
  · intro r hp0 hnum hne
    obtain ⟨hcase1, hcase2⟩ := resolvePrev_num s fid p page r hp0 hnum hne
    constructor
    · intro b hroot
      obtain ⟨h1, h2⟩ := hcase1 b hroot
      have hl := xReadMiss_log net s url fid p page pageStart offset n _ h1
      rw [h2] at hl
      exact hl
    · intro hroot
      obtain ⟨h1, h2⟩ := hcase2 hroot
      have hl := xReadMiss_log net s url fid p page pageStart offset n _ h1
      rw [h2] at hl
      exact hl

/-- Witness for C4 at a concrete miss: page 1 with page 0 absent fetches
exactly one page. -/
theorem coalescing_chunk_size_witness :
    (xReadMiss netUnit (openState fe8) "u" 1 8 1 8 8 8).1.fetchLog =
      (openState fe8).fetchLog ++ [(ckey 1 1, 8, 8)] :=
  (coalescing_chunk_size netUnit (openState fe8) "u" 1 8 1 8 8 8).1 (Or.inr rfl)

/-- Claim C6 counterexample: a database header whose page-size field (the
big-endian bytes at offsets 16–17 of page 0) reads 0 is stored as
`pageSize = 0`, which the falsy check `!entry.pageSize` treats as unknown:
the next `xRead` — started after the page size was set — performs a second
discovery read, so discovery is not performed at most once and the stored
page size is not immutable. -/
theorem page_size_discovery_counterexample :
    lookupF (xReadSeq (hdrNet 0 0) discState "u" 0 1024).1.files "u" =
      some (.fentry { url := "u", id := 1, size := 64, pageSize := some 0 }) ∧
    (xReadSeq (hdrNet 0 0) discState "u" 0 1024).1.fetchLog =
      [(ckey 1 0, 0, 1024)] ∧
    (xReadSeq (hdrNet 0 0)
        (xReadSeq (hdrNet 0 0) discState "u" 0 1024).1 "u" 0 1024).1.fetchLog =
      [(ckey 1 0, 0, 1024), (ckey 1 0, 0, 1024)] :=
  ⟨rfl, rfl, rfl⟩

/-- Claim C6 (amended): page-size discovery runs on the first `xRead`
(provisional page size 1024; the big-endian bytes at offsets 16–17 of
page 0 become the stored `pageSize`), a read whose discovery finds a value
above `maxPageSize` fails, and once a NONZERO `pageSize` is stored every
later `xRead` skips discovery and leaves it unchanged; a zero header
value, however, is stored but treated as unknown and rediscovered. -/
theorem page_size_discovery (net : String → Nat → Nat → FetchOutcome) :
    (∀ (s : SeqState) (url : String) (fe : FileEntry) (q offset n : Nat),
      lookupF s.files url = some (.fentry fe) → fe.pageSize = some q → q ≠ 0 →
      xReadSeq net s url offset n =
        xReadKnown net (bumpF s url) url fe.id q offset n ∧
      lookupF (xReadSeq net s url offset n).1.files url = some (.fentry fe)) ∧
    lookupF (xReadSeq (hdrNet 16 0) discState "u" 0 1024).1.files "u" =
      some (.fentry { url := "u", id := 1, size := 64, pageSize := some 4096 }) ∧
    (xReadSeq (hdrNet 16 0) discState "u" 0 1024).1.fetchLog =
      [(ckey 1 0, 0, 1024), (ckey 1 0, 0, 4096)] ∧
    (xReadSeq (hdrNet 32 0) discState "u" 0 1024).2 = .error () ∧
    lookupF (xReadSeq (hdrNet 32 0) discState "u" 0 1024).1.files "u" =
      some (.fentry { url := "u", id := 1, size := 64, pageSize := some 8192 }) := by
  refine ⟨?_, by rfl, by rfl, by rfl, by rfl⟩
  intro s url fe q offset n hf hq h0
  have hred := xReadSeq_known net s url fe q offset n hf hq h0
  refine ⟨hred, ?_⟩
  rw [hred, xReadKnown_files]
  show lookupF (s.files.fget url).2 url = _
  rw [lookupF_fget_self]
  exact hf

/-- Witness for C6's amended theorem at a concrete known-page-size file. -/
theorem page_size_discovery_witness :
    xReadSeq netUnit (openState fe8) "u" 0 8 =
      xReadKnown netUnit (bumpF (openState fe8) "u") "u" 1 8 0 8 ∧
    lookupF (xReadSeq netUnit (openState fe8) "u" 0 8).1.files "u" =
      some (.fentry fe8) :=
  (page_size_discovery netUnit).1 (openState fe8) "u" fe8 8 0 8 rfl rfl
    (by decide)

/-- Claim C7 counterexample: a read of a page holding a stale reference
whose root is absent fails WITHOUT fetching when the coalescing inspection
of page-1 awaits a rejected fetch promise (the poison left by an earlier
failed fetch, cf. C3): the claim's "proceeds to a fresh fetch — it does
not fail" does not hold in that reachable state. -/
theorem ref_after_eviction_counterexample :
    (xReadSeq netUnit c7poison "u" 40 8).2 = .error () ∧
    (xReadSeq netUnit c7poison "u" 40 8).1.fetchLog = [] :=
  ⟨rfl, rfl⟩

/-- Claim C7 (amended): if an `xRead` finds a Resident-reference entry for
its page and the referenced root does not yield resident bytes (evicted or
never fit), the read is treated as a cache miss and proceeds to a fresh
one-page fetch, succeeding with the freshly fetched bytes — provided the
coalescing inspection of page-1 does not hit a rejected fetch promise; in
that poisoned case the read fails without fetching (see the
counterexample), but it still never dereferences an invalid value nor
returns stale bytes. -/
theorem ref_after_eviction (net : String → Nat → Nat → FetchOutcome)
    (s : SeqState) (url : String) (fe : FileEntry) (p offset n r : Nat)
    (bs : List Nat)
    (hf : lookupF s.files url = some (.fentry fe))
    (hq : fe.pageSize = some p) (h0 : p ≠ 0)
    (hb : ¬ ((offset / p) * p + p < offset + n))
    (hpk : s.cache.peek (ckey fe.id (offset / p)) = some (.num r))
    (hroot : s.cache.peek (ckey fe.id r) = none)
    (hner : ckey fe.id r ≠ ckey fe.id (offset / p))
    (hprev : offset / p = 0 ∨
      (s.cache.peek (ckey fe.id (offset / p - 1)) = none ∧
        ckey fe.id (offset / p - 1) ≠ ckey fe.id (offset / p)))
    (hnet : net url ((offset / p) * p) p = .ok bs) (hbs : bs.length ≠ 0) :
    (xReadSeq net s url offset n).2 =
      .ok (readSlice bs ((offset / p) * p) offset n) ∧
    (xReadSeq net s url offset n).1.fetchLog =
      s.fetchLog ++ [(ckey fe.id (offset / p), (offset / p) * p, p)] := by
  have hred := xReadSeq_known net s url fe p offset n hf hq h0
  have hroot1 : (((bumpF s url).cache.get (ckey fe.id (offset / p))).2).peek
      (ckey fe.id r) = none := by
    rw [peek_get_ne _ _ _ hner]
    exact hroot
  have hdang := xReadKnown_dangling net (bumpF s url) url fe.id p offset n r
    h0 hb hpk hroot1
  have hprev1 : offset / p = 0 ∨
      (({ bumpF s url with
            cache := ((bumpF s url).cache.get (ckey fe.id (offset / p))).2 } :
          SeqState).cache.peek (ckey fe.id (offset / p - 1)) = none) := by
    rcases hprev with h | ⟨h, hneq⟩
    · exact Or.inl h
    · right
      show (((bumpF s url).cache.get (ckey fe.id (offset / p))).2).peek
        (ckey fe.id (offset / p - 1)) = none
      rw [peek_get_ne _ _ _ hneq]
      exact h
  have hok := xReadMiss_ok_onepage net
    ({ bumpF s url with
        cache := ((bumpF s url).cache.get (ckey fe.id (offset / p))).2 })
    url fe.id p (offset / p) ((offset / p) * p) offset n bs hprev1 hnet hbs
  rw [hred, hdang, hok]
  exact ⟨rfl, rfl⟩

/-- Witness for C7's amended theorem: page 5 holds a stale reference to
the absent root 3; reading it refetches one page and returns the fresh
bytes. -/
theorem ref_after_eviction_witness :
    (xReadSeq netUnit c7state "u" 40 8).2 =
      .ok (readSlice (List.replicate 8 1) 40 40 8) ∧
    (xReadSeq netUnit c7state "u" 40 8).1.fetchLog =
      c7state.fetchLog ++ [(ckey 1 5, 40, 8)] :=
  ref_after_eviction netUnit c7state "u" fe8 8 40 8 3 (List.replicate 8 1)
    rfl rfl (by decide) (by decide) rfl rfl (by decide)
    (Or.inr ⟨rfl, by decide⟩) rfl (by decide)

theorem lookupA_nil (k : String) : lookupA [] k = none := rfl

theorem lookupA_singleton (k : String) (v : CVal) :
    lookupA [(k, v)] k = some v := by
  simp [lookupA]

theorem setA_nil (k : String) (v : CVal) : setA [] k v = [(k, v)] := by
  simp [setA]

theorem setA_singleton (k : String) (v w : CVal) :
    setA [(k, v)] k w = [(k, w)] := by
  simp [setA]

theorem setRefsPromA_one (c : List (String × CVal)) (fid page pages pid : Nat)
    (h : pages - 1 = 0) : setRefsPromA c fid page pages pid = c := by
  simp [setRefsPromA, h]

theorem setRefsNumA_one (c : List (String × CVal)) (fid page pages : Nat)
    (h : pages - 1 = 0) : setRefsNumA c fid page pages = c := by
  simp [setRefsNumA, h]

theorem settleProm_nil (pid : Nat) (st : PromSt) : settleProm [] pid st = [] := rfl

theorem settleProm_singleton (q : PromSt) (pid : Nat) (st : PromSt) :
    ∃ q2, settleProm [q] pid st = [q2] := by
  cases pid with
  | zero =>
    cases q with
    | pending => exact ⟨st, rfl⟩
    | fulfilled b => exact ⟨.fulfilled b, rfl⟩
    | rejectedP => exact ⟨.rejectedP, rfl⟩
  | succ m => exact ⟨q, rfl⟩

theorem mem_updPC (ts : List MTask) (tid : Nat) (pc : TPC) (t2 : MTask)
    (h : t2 ∈ updPC ts tid pc) :
    t2 ∈ ts ∨ ∃ t, ts.get? tid = some t ∧ t2 = { t with pc := pc } := by
  unfold updPC at h
  cases hg : ts.get? tid with
  | none => rw [hg] at h; exact Or.inl h
  | some t =>
    rw [hg] at h
    rcases List.mem_or_eq_of_mem_set h with h1 | h1
    · exact Or.inl h1
    · exact Or.inr ⟨t, rfl, h1⟩

theorem shape_updPC (fid p page : Nat) (ts : List MTask) (tid : Nat) (pc : TPC)
    (hshape : ∀ t ∈ ts, t.fid = fid ∧ t.p = p ∧ t.page = page) :
    ∀ t2 ∈ updPC ts tid pc, t2.fid = fid ∧ t2.p = p ∧ t2.page = page := by
  intro t2 h2
  rcases mem_updPC ts tid pc t2 h2 with h | ⟨t, hg, he⟩
  · exact hshape t2 h
  · have := hshape t (List.get?_mem hg)
    rw [he]
    exact this

theorem pcs_updPC (P : TPC → Prop) (ts : List MTask) (tid : Nat) (pc : TPC)
    (hpc : ∀ t ∈ ts, P t.pc) (hP : P pc) :
    ∀ t2 ∈ updPC ts tid pc, P t2.pc := by
  intro t2 h2
  rcases mem_updPC ts tid pc t2 h2 with h | ⟨t, hg, he⟩
  · exact hpc t2 h
  · rw [he]
    exact hP

theorem inv1_B_updPC (fid p page : Nat) (s : MState) (tid : Nat) (pc : TPC)
    (hshape : ∀ t ∈ s.tasks, t.fid = fid ∧ t.p = p ∧ t.page = page)
    (hlog : ∃ st len, s.fetchLog = [(ckey fid page, st, len)])
    (hcache : ∃ v, s.cache = [(ckey fid page, v)] ∧
      (v = .prom 0 ∨ ∃ b, v = .data b))
    (hproms : ∃ q, s.proms = [q])
    (hpc : ∀ t ∈ s.tasks, pcOK1 p t.pc) (hP : pcOK1 p pc) :
    inv1 fid p page { s with tasks := updPC s.tasks tid pc } :=
  ⟨shape_updPC fid p page s.tasks tid pc hshape,
   Or.inr ⟨hlog, hcache, hproms, pcs_updPC (pcOK1 p) s.tasks tid pc hpc hP⟩⟩

theorem inv1_preserved (fid p page : Nat) (s : MState) (a : MAction)
    (hinv : inv1 fid p page s) (hne : isEvict a = false) :
    inv1 fid p page (execA s a) := by
  obtain ⟨hshape, hphase⟩ := hinv
  cases a with
  | evictK k => simp [isEvict] at hne
  | netOk pid b =>
    refine ⟨hshape, ?_⟩
    rcases hphase with ⟨hc, hpr, hl, hpc⟩ | ⟨h1, h2, ⟨q, hq⟩, h4⟩
    · left
      refine ⟨hc, ?_, hl, hpc⟩
      show settleProm s.proms pid (.fulfilled b) = []
      rw [hpr]
      exact settleProm_nil pid _
    · right
      refine ⟨h1, h2, ?_, h4⟩
      show ∃ q2, settleProm s.proms pid (.fulfilled b) = [q2]
      rw [hq]
      exact settleProm_singleton q pid _
  | netErr pid =>
    refine ⟨hshape, ?_⟩
    rcases hphase with ⟨hc, hpr, hl, hpc⟩ | ⟨h1, h2, ⟨q, hq⟩, h4⟩
    · left
      refine ⟨hc, ?_, hl, hpc⟩
      show settleProm s.proms pid .rejectedP = []
      rw [hpr]
      exact settleProm_nil pid _
    · right
      refine ⟨h1, h2, ?_, h4⟩
      show ∃ q2, settleProm s.proms pid .rejectedP = [q2]
      rw [hq]
      exact settleProm_singleton q pid _
  | runT tid =>
    have hexec : execA s (.runT tid) =
        match s.tasks.get? tid with
        | none => s
        | some t => runTask s tid t := rfl
    cases hg : s.tasks.get? tid with
    | none =>
      rw [hexec, hg]
      exact ⟨hshape, hphase⟩
    | some t =>
      rw [hexec, hg]
      show inv1 fid p page (runTask s tid t)
      obtain ⟨he1, he2, he3⟩ := hshape _ (List.get?_mem hg)
      rcases hphase with ⟨hc, hpr, hl, hpc⟩ |
        ⟨⟨st0, len0, hl⟩, ⟨v, hcv, hv⟩, ⟨q, hq⟩, hpc⟩
      · -- Phase A: the first scheduled task issues the one fetch.
        have hpct : t.pc = .start := hpc _ (List.get?_mem hg)
        have hstep : runTask s tid t = stepStart s tid t := by
          simp [runTask, hpct]
        have hla : lookupA s.cache (ckey t.fid t.page) = none := by
          rw [hc]
          rfl
        have hmp : stepStart s tid t = missPath s tid t := by
          simp [stepStart, hla]
        have hfn : missPath s tid t = fetchNow s tid t t.p := by
          by_cases hp0 : t.page = 0
          · simp [missPath, hp0]
          · have hla2 : lookupA s.cache (ckey t.fid (t.page - 1)) = none := by
              rw [hc]
              rfl
            simp [missPath, hp0, hla2]
        rw [hstep, hmp, hfn]
        refine ⟨?_, Or.inr ⟨?_, ?_, ?_, ?_⟩⟩
        · exact shape_updPC fid p page s.tasks tid _ hshape
        · refine ⟨page * p, p, ?_⟩
          show s.fetchLog ++ [(ckey t.fid t.page, t.page * t.p, t.p)] = _
          rw [hl, he1, he2, he3]
          rfl
        · refine ⟨.prom 0, ?_, Or.inl rfl⟩
          show setRefsPromA (setA s.cache (ckey t.fid t.page) (.prom s.proms.length))
              t.fid t.page (t.p / t.p) s.proms.length = _
          rw [hc, hpr, he1, he2, he3]
          rw [setA_nil, setRefsPromA_one _ _ _ _ _ (div_self_sub_one p)]
          rfl
        · refine ⟨.pending, ?_⟩
          show s.proms ++ [.pending] = _
          rw [hpr]
          rfl
        · show ∀ t2 ∈ updPC s.tasks tid (.s5 s.proms.length t.p), pcOK1 p t2.pc
          have hz : (.s5 s.proms.length t.p : TPC) = .s5 0 p := by
            rw [hpr, he2]
            rfl
          rw [hz]
          apply pcs_updPC
          · intro t2 h2
            rw [hpc t2 h2]
            exact Or.inl rfl
          · exact Or.inr (Or.inr (Or.inl rfl))
      · -- Phase B: the fetch has been issued; no task fetches again.
        have hpcok := hpc _ (List.get?_mem hg)
        have hlogB : ∃ st len, s.fetchLog = [(ckey fid page, st, len)] :=
          ⟨st0, len0, hl⟩
        rcases hpcok with hpct | hpct | hpct | ⟨x, hpct⟩
        · -- start: joins the promise or hits
          have hla : lookupA s.cache (ckey t.fid t.page) = some v := by
            rw [hcv, he1, he3, lookupA_singleton]
          have hstep : runTask s tid t = stepStart s tid t := by
            simp [runTask, hpct]
          rw [hstep]
          rcases hv with hv0 | ⟨b, hv0⟩
          · subst hv0
            have hss : stepStart s tid t =
                { s with tasks := updPC s.tasks tid (.s1 (.direct 0)) } := by
              simp [stepStart, hla]
            rw [hss]
            exact inv1_B_updPC fid p page s tid _ hshape hlogB
              ⟨_, hcv, Or.inl rfl⟩ ⟨q, hq⟩ hpc (Or.inr (Or.inl rfl))
          · subst hv0
            have hss : stepStart s tid t =
                { s with tasks := updPC s.tasks tid (.doneT 0) } := by
              simp [stepStart, hla]
            rw [hss]
            exact inv1_B_updPC fid p page s tid _ hshape hlogB
              ⟨_, hcv, Or.inr ⟨b, rfl⟩⟩ ⟨q, hq⟩ hpc
              (Or.inr (Or.inr (Or.inr ⟨0, rfl⟩)))
        · -- s1: resume the joined await
          cases q with
          | pending =>
            have hget0 : s.proms[0]? = some PromSt.pending := by
              rw [hq]
              rfl
            have hid : runTask s tid t = s := by
              simp [runTask, hpct, awaitVal, hget0]
            rw [hid]
            exact ⟨hshape, Or.inr ⟨hlogB, ⟨v, hcv, hv⟩, ⟨_, hq⟩, hpc⟩⟩
          | fulfilled b =>
            have hget0 : s.proms[0]? = some (PromSt.fulfilled b) := by
              rw [hq]
              rfl
            have hid : runTask s tid t =
                { s with tasks := updPC s.tasks tid (.doneT 0) } := by
              simp [runTask, hpct, awaitVal, hget0]
            rw [hid]
            exact inv1_B_updPC fid p page s tid _ hshape hlogB
              ⟨v, hcv, hv⟩ ⟨_, hq⟩ hpc (Or.inr (Or.inr (Or.inr ⟨0, rfl⟩)))
          | rejectedP =>
            have hget0 : s.proms[0]? = some PromSt.rejectedP := by
              rw [hq]
              rfl
            have hid : runTask s tid t =
                { s with tasks := updPC s.tasks tid (.doneT 1) } := by
              simp [runTask, hpct, awaitVal, hget0]
            rw [hid]
            exact inv1_B_updPC fid p page s tid _ hshape hlogB
              ⟨v, hcv, hv⟩ ⟨_, hq⟩ hpc (Or.inr (Or.inr (Or.inr ⟨1, rfl⟩)))
        · -- s5: the fetching task completes (or fails)
          cases q with
          | pending =>
            have hget0 : s.proms[0]? = some PromSt.pending := by
              rw [hq]
              rfl
            have hid : runTask s tid t = s := by
              simp [runTask, hpct, hget0]
            rw [hid]
            exact ⟨hshape, Or.inr ⟨hlogB, ⟨v, hcv, hv⟩, ⟨_, hq⟩, hpc⟩⟩
          | fulfilled b =>
            have hget0 : s.proms[0]? = some (PromSt.fulfilled b) := by
              rw [hq]
              rfl
            by_cases hb0 : b.length = 0
            · have hid : runTask s tid t =
                  { s with tasks := updPC s.tasks tid (.doneT 1) } := by
                simp [runTask, hpct, hget0, hb0]
              rw [hid]
              exact inv1_B_updPC fid p page s tid _ hshape hlogB
                ⟨v, hcv, hv⟩ ⟨_, hq⟩ hpc (Or.inr (Or.inr (Or.inr ⟨1, rfl⟩)))
            · have hcnew : setRefsNumA (setA s.cache (ckey t.fid t.page) (.data b))
                  t.fid t.page (p / t.p) = [(ckey fid page, .data b)] := by
                rw [hcv, he1, he2, he3, setA_singleton,
                  setRefsNumA_one _ _ _ _ (div_self_sub_one p)]
              have hid : runTask s tid t =
                  { s with
                      cache := setRefsNumA
                        (setA s.cache (ckey t.fid t.page) (.data b))
                        t.fid t.page (p / t.p),
                      tasks := updPC s.tasks tid (.doneT 0) } := by
                simp [runTask, hpct, hget0, hb0]
              rw [hid]
              refine ⟨shape_updPC fid p page s.tasks tid _ hshape,
                Or.inr ⟨hlogB, ⟨.data b, hcnew, Or.inr ⟨b, rfl⟩⟩, ⟨_, hq⟩, ?_⟩⟩
              exact pcs_updPC (pcOK1 p) s.tasks tid _ hpc
                (Or.inr (Or.inr (Or.inr ⟨0, rfl⟩)))
          | rejectedP =>
            have hget0 : s.proms[0]? = some PromSt.rejectedP := by
              rw [hq]
              rfl
            have hid : runTask s tid t =
                { s with tasks := updPC s.tasks tid (.doneT 1) } := by
              simp [runTask, hpct, hget0]
            rw [hid]
            exact inv1_B_updPC fid p page s tid _ hshape hlogB
              ⟨v, hcv, hv⟩ ⟨_, hq⟩ hpc (Or.inr (Or.inr (Or.inr ⟨1, rfl⟩)))
        · -- finished task
          have hid : runTask s tid t = s := by
            simp [runTask, hpct]
          rw [hid]
          exact ⟨hshape, Or.inr ⟨hlogB, ⟨v, hcv, hv⟩, ⟨_, hq⟩, hpc⟩⟩

theorem inv1_init (n fid p page : Nat) : inv1 fid p page (initM n fid p page) := by
  refine ⟨?_, Or.inl ⟨rfl, rfl, rfl, ?_⟩⟩
  · intro t ht
    have h := List.eq_of_mem_replicate ht
    rw [h]
    exact ⟨rfl, rfl, rfl⟩
  · intro t ht
    have h := List.eq_of_mem_replicate ht
    rw [h]

theorem inv1_run (fid p page : Nat) (s : MState) (acts : List MAction)
    (hinv : inv1 fid p page s) (hne : ∀ a ∈ acts, isEvict a = false) :
    inv1 fid p page (runM s acts) := by
  induction acts generalizing s with
  | nil => exact hinv
  | cons a rest ih =>
    have h1 := inv1_preserved fid p page s a hinv (hne a (List.mem_cons_self a rest))
    exact ih (execA s a) h1 (fun x hx => hne x (List.mem_cons_of_mem a hx))

/-- Claim C1 counterexample: with no eviction anywhere, two concurrent
requesters of page 1 can each issue a fetch for the same key.  Task 0
fetches page 0; tasks 1 and 2 both miss on page 1 and then suspend at the
coalescing await on page 0's pending promise — before installing anything
at their own key — so when page 0's fetch resolves, each resumes and
issues its own fetch for key 1|1: the fetch-call count for that key
reaches 2, and the first requester of 1|1 reached a suspension point with
no Pending entry installed at 1|1. -/
theorem single_flight_counterexample :
    (∀ a ∈ cexActs, isEvict a = false) ∧
    lookupA (runM cexInit [.runT 0, .runT 1]).cache (ckey 1 1) = none ∧
    (runM cexInit [.runT 0, .runT 1]).tasks.get? 1 =
      some { fid := 1, p := 8, page := 1, pc := .s3 (.direct 0) } ∧
    countFetches (runM cexInit cexActs).fetchLog (ckey 1 1) = 2 :=
  ⟨by decide, rfl, rfl, rfl⟩

/-- Claim C1 (amended): a requester that finds a Pending entry at its key
joins that promise and never fetches, and a fetch is installed as Pending
in the same atomic segment that issues it; hence when N concurrent
`xRead` requests all target the same key over a cold cache, any
eviction-free schedule issues at most one fetch for that key.  (In
general the miss check can be separated from the fetch by an await on the
preceding page's pending promise, so concurrent requesters can each fetch
the same key — see the counterexample.) -/
theorem single_flight_amended (n fid p page : Nat) (acts : List MAction)
    (hne : ∀ a ∈ acts, isEvict a = false) :
    countFetches (runM (initM n fid p page) acts).fetchLog (ckey fid page) ≤ 1 := by
  have h := inv1_run fid p page (initM n fid p page) acts
    (inv1_init n fid p page) hne
  rcases h.2 with ⟨hc, hpr, hl, hpc⟩ | ⟨⟨st0, len0, hl⟩, hrest⟩
  · rw [hl]
    simp [countFetches]
  · rw [hl]
    have h1 : countFetches [(ckey fid page, st0, len0)] (ckey fid page) = 1 := by
      simp [countFetches]
    omega

/-- Witness for C1's amended theorem: three requesters of page 2, an
eviction-free schedule, at most one fetch for key 1|2. -/
theorem single_flight_amended_witness :
    countFetches (runM (initM 3 1 8 2) skActs).fetchLog (ckey 1 2) ≤ 1 :=
  single_flight_amended 3 1 8 2 skActs (by decide)

/-- Witness for C5 at the concrete resident state: the cross-page read
`read(100, 1024)` is rejected; the misaligned within-page `read(100, 10)`
succeeds with the resident bytes. -/
theorem cross_page_read_witness :
    (xReadSeq netUnit c5state "u" 100 1024).2 = .error () ∧
    (xReadSeq netUnit c5state "u" 100 10).2 =
      .ok (readSlice (List.replicate 128 3) 0 100 10) := by
  have h1 := cross_page_read netUnit c5state "u" fe1024 1024 100 1024 rfl rfl
    (by decide)
  have h2 := cross_page_read netUnit c5state "u" fe1024 1024 100 10 rfl rfl
    (by decide)
  refine ⟨h1.1 (by decide), ?_⟩
  have h3 := h2.2.1 (by decide) (List.replicate 128 3) rfl
  simpa using h3

end VfsWorker
